import Mathlib

/-!
Verification of the face-tagging subsystem of tidyphotos.

The development shallowly embeds three parts of the source:

* the descriptor matcher (`findBestMatch`, `getConfidenceLevel`,
  `shouldAutoConfirm`, `shouldSuggest` from the face-detection service);
  floats are idealized as real numbers, `faceapi.euclideanDistance` is the
  usual Euclidean distance;
* the identity descriptor store (`parseFaceEncodings`,
  `serializeFaceEncodings`, `addFaceEncoding`); stored texts are modelled as
  strings and the JSON subset actually used (arrays of arrays of decimal
  numbers, with whitespace) is parsed character by character;
* the fullscreen viewer (`FullscreenViewer` in
  `src/frontend/fullscreen-viewer.ts`): tag drawing state machine and the
  asynchronous tag persistence flows, with asynchrony made explicit through
  pending-request queues and completion events.
-/

namespace TidyPhotos

/-! ## Descriptor matcher (face-detection service) -/

/-- An entry of the `knownDescriptors` roster passed to `findBestMatch`:
an identity id together with one of its reference descriptors. -/
structure KnownDescriptor where
  personId : ℕ
  descriptor : List ℝ

/-- The `FaceMatchResult` record returned by `findBestMatch`.  `personId`
is `none` exactly when the source object carries no `personId` field. -/
structure FaceMatchResult where
  personId : Option ℕ
  confidence : ℝ
  distance : ℝ
  isMatch : Bool

/-- `RECOGNITION_DISTANCE_THRESHOLD` from the service constructor. -/
noncomputable def RECOGNITION_DISTANCE_THRESHOLD : ℝ := 0.45

/-- `HIGH_CONFIDENCE_THRESHOLD` from the service constructor. -/
noncomputable def HIGH_CONFIDENCE_THRESHOLD : ℝ := 0.8

/-- `MEDIUM_CONFIDENCE_THRESHOLD` from the service constructor. -/
noncomputable def MEDIUM_CONFIDENCE_THRESHOLD : ℝ := 0.6

/-- `faceapi.euclideanDistance`: square root of the summed squared
coordinate differences. -/
noncomputable def euclideanDistance (a b : List ℝ) : ℝ :=
  Real.sqrt (((a.zip b).map (fun p => (p.1 - p.2) ^ 2)).sum)

/-- The loop body of `findBestMatch`: compute the distance to one roster
entry and replace the running best match when the distance is strictly
smaller than the best distance so far. -/
noncomputable def matchStep (faceDescriptor : List ℝ)
    (best : FaceMatchResult) (known : KnownDescriptor) : FaceMatchResult :=
  let distance := euclideanDistance faceDescriptor known.descriptor
  let confidence := max 0 (1 - distance)
  if distance < best.distance then
    { personId := some known.personId
      confidence := confidence
      distance := distance
      isMatch := decide (distance ≤ RECOGNITION_DISTANCE_THRESHOLD) }
  else best

/-- The initial `bestMatch` value of `findBestMatch` (also the value
returned for an empty roster). -/
def emptyMatch : FaceMatchResult :=
  { personId := none, confidence := 0, distance := 1, isMatch := false }

/-- `findBestMatch` from the face-detection service: linear scan over the
roster starting from the sentinel `{confidence 0, distance 1}`. -/
noncomputable def findBestMatch (faceDescriptor : List ℝ)
    (knownDescriptors : List KnownDescriptor) : FaceMatchResult :=
  if knownDescriptors.length = 0 then emptyMatch
  else knownDescriptors.foldl (matchStep faceDescriptor) emptyMatch

/-- The three confidence tiers returned by `getConfidenceLevel`. -/
inductive ConfidenceLevel where
  | low
  | medium
  | high
deriving DecidableEq

/-- `getConfidenceLevel` from the face-detection service. -/
noncomputable def getConfidenceLevel (confidence : ℝ) : ConfidenceLevel :=
  if HIGH_CONFIDENCE_THRESHOLD ≤ confidence then .high
  else if MEDIUM_CONFIDENCE_THRESHOLD ≤ confidence then .medium
  else .low

/-- `shouldAutoConfirm` from the face-detection service. -/
noncomputable def shouldAutoConfirm (confidence : ℝ) : Bool :=
  decide (HIGH_CONFIDENCE_THRESHOLD ≤ confidence)

/-- `shouldSuggest` from the face-detection service. -/
noncomputable def shouldSuggest (confidence : ℝ) : Bool :=
  decide (MEDIUM_CONFIDENCE_THRESHOLD ≤ confidence)

/-- Distances from a candidate descriptor to every roster entry. -/
noncomputable def rosterDistances (cand : List ℝ)
    (roster : List KnownDescriptor) : List ℝ :=
  roster.map (fun k => euclideanDistance cand k.descriptor)

/-- Relation between the fields of a match result that the scan of
`findBestMatch` maintains. -/
def MatchInvariant (r : FaceMatchResult) : Prop :=
  r.confidence = max 0 (1 - r.distance)
    ∧ 0 ≤ r.distance
    ∧ (r.isMatch = true ↔ r.distance ≤ RECOGNITION_DISTANCE_THRESHOLD)

/-! ## Fullscreen viewer: data model

Coordinates are percentages of the displayed image; the viewer computes
them as rational numbers, idealized here as `ℚ`. -/

/-- A point in percentage-of-image coordinates (the viewer stores
`originalStartPos` in this shape). -/
structure Pt where
  x : ℚ
  y : ℚ
deriving DecidableEq

/-- The `drawStartPos` preview rectangle of the viewer (`width` and
`height` are the optional fields, always set by the drawing code). -/
structure PreviewRect where
  x : ℚ
  y : ℚ
  width : ℚ
  height : ℚ
deriving DecidableEq

/-- A face tag as held in the viewer working list `currentFaceTags` and in
the metadata store.  The `photo` field records which photo the store
created the tag under (the store keys tags by photo name); the viewer
objects do not carry it, it is the association needed to state cross-photo
leakage. -/
structure FaceTag where
  id : ℕ
  photo : String
  x : ℚ
  y : ℚ
  width : ℚ
  height : ℚ
  personId : Option ℕ
  personName : String
  confidence : ℚ
  isManual : Bool
deriving DecidableEq

/-- The JSON body of the POST request issued by `saveFaceTagToDatabase`. -/
structure CreateReq where
  x : ℚ
  y : ℚ
  width : ℚ
  height : ℚ
  personId : Option ℕ
  confidence : ℚ
  isManual : Bool
deriving DecidableEq

/-- The mutable fields of `FullscreenViewer` touched by the face-tagging
flows.  `currentPhoto` is the name of the currently displayed photo
(`this.currentPhoto?.name`), `none` when no photo is displayed.
`clickStartTime` is not modelled: the source writes it but never reads
it. -/
structure ViewerState where
  currentPhoto : Option String
  taggingMode : Bool
  isDrawingTag : Bool
  drawStartPos : Option PreviewRect
  originalStartPos : Option Pt
  isDragging : Bool
  currentFaceTags : List FaceTag
deriving DecidableEq

/-- `toggleTaggingMode`: flip the flag; when leaving tagging mode, reset
the drawing state. -/
def toggleTaggingMode (s : ViewerState) : ViewerState :=
  if s.taggingMode then
    { s with
      taggingMode := false
      isDrawingTag := false
      drawStartPos := none
      originalStartPos := none
      isDragging := false }
  else { s with taggingMode := true }

/-- `finishDrawingTag` (coordinate arguments; `isFromClickClick` is true
on the numeric overload used by the second click, false on the mouseup
path).  Returns the new viewer state and the create request issued to
`saveFaceTagToDatabase`, if any.  The source pushes the saved tag into
`currentFaceTags` only in the promise continuation, modelled separately
as a completion event. -/
def finishDrawingTag (s : ViewerState) (x y : ℚ) (isFromClickClick : Bool) :
    ViewerState × Option CreateReq :=
  match s.isDrawingTag, s.drawStartPos, s.originalStartPos with
  | true, some _, some o =>
    let shouldCreateTag := isFromClickClick || s.isDragging
    if shouldCreateTag then
      let tagX := min o.x x
      let tagY := min o.y y
      let tagW := |x - o.x|
      let tagH := |y - o.y|
      let minSize : ℚ := if isFromClickClick then 1 else 2
      if minSize < tagW ∧ minSize < tagH then
        ({ s with
            isDrawingTag := false
            drawStartPos := none
            originalStartPos := none
            isDragging := false },
          some { x := tagX, y := tagY, width := tagW, height := tagH,
                 personId := none, confidence := 1, isManual := true })
      else if s.isDragging || isFromClickClick then
        ({ s with
            isDrawingTag := false
            drawStartPos := none
            originalStartPos := none
            isDragging := false }, none)
      else (s, none)
    else (s, none)
  | _, _, _ => (s, none)

/-- `startDrawingTag` (coordinate arguments).  First click anchors a new
tag; a second click while drawing completes it through
`finishDrawingTag`. -/
def startDrawingTag (s : ViewerState) (x y : ℚ) :
    ViewerState × Option CreateReq :=
  if s.taggingMode then
    let s1 := { s with isDragging := false }
    if s1.isDrawingTag then finishDrawingTag s1 x y true
    else ({ s1 with
        isDrawingTag := true
        originalStartPos := some { x := x, y := y }
        drawStartPos := some { x := x, y := y, width := 0, height := 0 } },
      none)
  else (s, none)

/-- `updateDrawingTag` (coordinate arguments): flag dragging beyond a
2-point movement and, while dragging, recompute the normalized preview
rectangle. -/
def updateDrawingTag (s : ViewerState) (x y : ℚ) : ViewerState :=
  match s.isDrawingTag, s.drawStartPos, s.originalStartPos with
  | true, some _, some o =>
    let deltaX := |x - o.x|
    let deltaY := |y - o.y|
    let dragging := if (2 < deltaX ∨ 2 < deltaY) ∧ ¬ s.isDragging then true
      else s.isDragging
    if dragging then
      { s with
        isDragging := dragging
        drawStartPos := some
          { x := min o.x x
            y := min o.y y
            width := max o.x x - min o.x x
            height := max o.y y - min o.y y } }
    else { s with isDragging := dragging }
  | _, _, _ => s

/-- `removeTag`: look the tag up locally, issue the remote DELETE, and
drop the local entry only when the remote call succeeded (`remoteOk`
covers both a non-ok response and a network error). -/
def removeTag (s : ViewerState) (tagId : ℕ) (remoteOk : Bool) : ViewerState :=
  match s.currentFaceTags.find? (fun t => t.id == tagId) with
  | none => s
  | some _ =>
    if remoteOk then
      { s with currentFaceTags :=
          s.currentFaceTags.filter (fun t => t.id != tagId) }
    else s

/-- `assignPersonToTag`: look the tag up locally, issue the remote PUT,
and update the local `personId` and `personName` only on success. -/
def assignPersonToTag (s : ViewerState) (tagId personId : ℕ)
    (personName : String) (remoteOk : Bool) : ViewerState :=
  match s.currentFaceTags.find? (fun t => t.id == tagId) with
  | none => s
  | some _ =>
    if remoteOk then
      { s with currentFaceTags := s.currentFaceTags.map (fun t =>
          if t.id == tagId then
            { t with personId := some personId, personName := personName }
          else t) }
    else s

/-- The synchronous prefix of `loadFaceTagsForCurrentPhoto`: reset the
drawing state before the tags are fetched. -/
def loadReset (s : ViewerState) : ViewerState :=
  { s with
    taggingMode := false
    isDrawingTag := false
    drawStartPos := none
    originalStartPos := none
    isDragging := false }

/-- `saveFaceTags`: exit tagging mode and reset the drawing state (tags
were already saved individually). -/
def saveFaceTags (s : ViewerState) : ViewerState :=
  { s with
    taggingMode := false
    isDrawingTag := false
    drawStartPos := none
    originalStartPos := none
    isDragging := false }

/-- `runUpdates`: a sequence of `updateDrawingTag` calls (the mousemove
stream of a gesture). -/
def runUpdates (s : ViewerState) (us : List Pt) : ViewerState :=
  us.foldl (fun s p => updateDrawingTag s p.x p.y) s

/-! ## Viewer with its asynchronous store interactions

The store and in-flight requests are explicit so interleavings of
navigation and late completions can be stated.  The store model is
minimal: a successful create appends a row carrying the targeted photo
and a fresh id and echoes it back, a successful load returns the rows of
the requested photo. -/

/-- Full system state: the viewer, the metadata store contents, a fresh-id
counter, and the in-flight create and load requests (each create records
the photo that was current when it was issued). -/
structure SysState where
  viewer : ViewerState
  store : List FaceTag
  nextId : ℕ
  pendingCreates : List (String × CreateReq)
  pendingLoads : List String
deriving DecidableEq

/-- The tag row the store creates for a create request and echoes back as
`data.faceTag`. -/
def savedTagOf (nextId : ℕ) (photo : String) (r : CreateReq) : FaceTag :=
  { id := nextId, photo := photo, x := r.x, y := r.y, width := r.width,
    height := r.height, personId := r.personId, personName := "",
    confidence := r.confidence, isManual := r.isManual }

/-- Events driving the system: user interactions and asynchronous
completions.  `navigate` covers `openFullScreen`, `nextPhoto` and
`previousPhoto`, all of which run `loadFaceTagsForCurrentPhoto` on the new
photo. -/
inductive Event where
  | navigate (photo : Option String)
  | toggleTagging
  | save
  | start (x y : ℚ)
  | update (x y : ℚ)
  | finishUp (x y : ℚ)
  | completeCreate (i : ℕ) (ok : Bool)
  | completeLoad (i : ℕ) (ok : Bool)
  | remove (tagId : ℕ) (ok : Bool)
  | assign (tagId personId : ℕ) (personName : String) (ok : Bool)
deriving DecidableEq

/-- Record a create request in flight; `saveFaceTagToDatabase` resolves
to null immediately when no photo is displayed, so nothing is issued
then. -/
def enqueueCreate (σ : SysState) (vr : ViewerState × Option CreateReq) :
    SysState :=
  match vr.2, σ.viewer.currentPhoto with
  | some r, some p =>
    { σ with viewer := vr.1, pendingCreates := σ.pendingCreates ++ [(p, r)] }
  | _, _ => { σ with viewer := vr.1 }

/-- Navigation to a photo (or to none): reset the drawing state and issue
the tag load for the new photo; with no photo the working list is cleared
at once. -/
def stepNavigate (σ : SysState) (p : Option String) : SysState :=
  let v1 := loadReset { σ.viewer with currentPhoto := p }
  match p with
  | some name =>
    { σ with viewer := v1, pendingLoads := σ.pendingLoads ++ [name] }
  | none => { σ with viewer := { v1 with currentFaceTags := [] } }

/-- Completion of an in-flight create: on success the store appends the
new row and the viewer promise continuation pushes the echoed tag into
whatever `currentFaceTags` holds at that moment; on failure
(`saveFaceTagToDatabase` resolves to null) nothing is applied. -/
def stepCompleteCreate (σ : SysState) (i : ℕ) (ok : Bool) : SysState :=
  match σ.pendingCreates[i]? with
  | none => σ
  | some pr =>
    let σ1 := { σ with pendingCreates := σ.pendingCreates.eraseIdx i }
    if ok then
      let t := savedTagOf σ.nextId pr.1 pr.2
      { σ1 with
        store := σ1.store ++ [t]
        nextId := σ1.nextId + 1
        viewer := { σ1.viewer with
          currentFaceTags := σ1.viewer.currentFaceTags ++ [t] } }
    else σ1

/-- Completion of an in-flight tag load: the handler overwrites
`currentFaceTags` with the fetched tags (the rows of the requested
photo), or with the empty list when the fetch failed. -/
def stepCompleteLoad (σ : SysState) (i : ℕ) (ok : Bool) : SysState :=
  match σ.pendingLoads[i]? with
  | none => σ
  | some p =>
    let σ1 := { σ with pendingLoads := σ.pendingLoads.eraseIdx i }
    let tags := if ok then σ1.store.filter (fun t => t.photo == p) else []
    { σ1 with viewer := { σ1.viewer with currentFaceTags := tags } }

/-- One step of the system. -/
def step (σ : SysState) (e : Event) : SysState :=
  match e with
  | .navigate p => stepNavigate σ p
  | .toggleTagging => { σ with viewer := toggleTaggingMode σ.viewer }
  | .save => { σ with viewer := saveFaceTags σ.viewer }
  | .start x y => enqueueCreate σ (startDrawingTag σ.viewer x y)
  | .update x y => { σ with viewer := updateDrawingTag σ.viewer x y }
  | .finishUp x y => enqueueCreate σ (finishDrawingTag σ.viewer x y false)
  | .completeCreate i ok => stepCompleteCreate σ i ok
  | .completeLoad i ok => stepCompleteLoad σ i ok
  | .remove tagId ok => { σ with viewer := removeTag σ.viewer tagId ok }
  | .assign tagId pid name ok =>
    { σ with viewer := assignPersonToTag σ.viewer tagId pid name ok }

/-- Run a sequence of events. -/
def run (σ : SysState) (evs : List Event) : SysState := evs.foldl step σ

/-- The viewer before any photo is opened. -/
def initViewer : ViewerState :=
  { currentPhoto := none, taggingMode := false, isDrawingTag := false,
    drawStartPos := none, originalStartPos := none, isDragging := false,
    currentFaceTags := [] }

/-- The initial system: fresh viewer, empty store, nothing in flight. -/
def initSys : SysState :=
  { viewer := initViewer, store := [], nextId := 0, pendingCreates := [],
    pendingLoads := [] }

/-- A completion event is timely when the photo it targets is still the
displayed photo at the moment it is processed. -/
def timely (σ : SysState) (e : Event) : Bool :=
  match e with
  | .completeCreate i _ =>
    match σ.pendingCreates[i]? with
    | some pr => some pr.1 == σ.viewer.currentPhoto
    | none => true
  | .completeLoad i _ =>
    match σ.pendingLoads[i]? with
    | some p => some p == σ.viewer.currentPhoto
    | none => true
  | _ => true

/-- A trace is timely when every completion in it is timely at the state
where it fires. -/
def timelyTrace (σ : SysState) : List Event → Bool
  | [] => true
  | e :: r => timely σ e && timelyTrace (step σ e) r

/-- No cross-photo leakage, stated for quiescent-load states: when no tag
load is in flight, every tag in the working list belongs to the current
photo. -/
def TagsMatchPhoto (σ : SysState) : Prop :=
  σ.pendingLoads = [] →
    ∀ t ∈ σ.viewer.currentFaceTags, some t.photo = σ.viewer.currentPhoto

/-- The draw-session invariant of the viewer: an active draw session
implies tagging mode, an anchor, and a preview rectangle with nonnegative
extent. -/
def drawInv (v : ViewerState) : Bool :=
  !v.isDrawingTag ||
    (v.taggingMode && v.originalStartPos.isSome &&
      (match v.drawStartPos with
       | some r => decide (0 ≤ r.width) && decide (0 ≤ r.height)
       | none => false))

/-- An in-progress draw session anchored at `(a, b)`: drawing is active,
the anchor is `(a, b)` and a preview rectangle exists. -/
def Anchored (s : ViewerState) (a b : ℚ) : Prop :=
  s.isDrawingTag = true
    ∧ s.originalStartPos = some { x := a, y := b }
    ∧ s.drawStartPos.isSome = true

/-- The four-field reset block that ends a draw session (the source
repeats these assignments at every reset site of `finishDrawingTag`). -/
def resetDraw (s : ViewerState) : ViewerState :=
  { s with
    isDrawingTag := false
    drawStartPos := none
    originalStartPos := none
    isDragging := false }

/-- A concrete create request used by witnesses. -/
def exReq : CreateReq :=
  { x := 10, y := 10, width := 30, height := 30, personId := none,
    confidence := 1, isManual := true }

/-- A concrete viewer showing photo `A` with one pending create, used by
witnesses. -/
def exC5State : SysState :=
  { viewer :=
      { currentPhoto := some "A"
        taggingMode := false
        isDrawingTag := false
        drawStartPos := none
        originalStartPos := none
        isDragging := false
        currentFaceTags := [] }
    store := []
    nextId := 3
    pendingCreates := [("A", exReq)]
    pendingLoads := [] }

/-- An interleaving in which a tag drawn on photo `A` finishes persisting
only after the user has navigated to photo `B` and `B`'s tag load has
already landed: open `A`, let its load land, draw and release a tag, go
to `B`, let `B`'s load land, and only then let the create complete. -/
def exTrace : List Event :=
  [Event.navigate (some "A"), Event.completeLoad 0 true,
   Event.toggleTagging, Event.start 10 10, Event.update 40 40,
   Event.finishUp 40 40, Event.navigate (some "B"),
   Event.completeLoad 0 true, Event.completeCreate 0 true]

/-- The tag of photo `A` that the late create completion pushes into the
working list while photo `B` is displayed. -/
def exLeakTag : FaceTag :=
  savedTagOf 0 "A"
    { x := 10, y := 10, width := 30, height := 30, personId := none,
      confidence := 1, isManual := true }

/-! ## Identity descriptor store (face encodings as JSON text)

The stored column is a JSON string holding an array of arrays of numbers.
`JSON.parse`/`JSON.stringify` are platform builtins; they are modelled on
the subset the store actually produces and consumes: arrays, decimal
numbers (optional sign and fraction, no exponents) and whitespace.  Any
other input is treated as a parse failure, which `parseFaceEncodings`
maps to the empty list just as the source maps a `JSON.parse` exception.
Numbers are modelled as exact decimals (a float32 round-trip is
idealized as exact): mantissa and decimal-scale pairs, kept canonical
(no trailing fractional zeros) exactly as `JSON.stringify` prints them. -/

/-- Canonical decimal pair: value `m / 10 ^ e`, with no trailing zero in
the fraction (`e = 0` or `10` does not divide `m`). -/
def DecOk (p : ℤ × ℕ) : Prop := p.2 = 0 ∨ ¬ (10 : ℤ) ∣ p.1

instance (p : ℤ × ℕ) : Decidable (DecOk p) :=
  decidable_of_iff (p.2 = 0 ∨ ¬ p.1 % 10 = 0) (by
    rw [DecOk, Int.dvd_iff_emod_eq_zero])

/-- A number as `JSON.stringify` prints it: canonical decimal. -/
def DecNum := { p : ℤ × ℕ // DecOk p }

instance : DecidableEq DecNum := fun a b =>
  decidable_of_iff (a.val = b.val) Subtype.ext_iff.symm

/-- Digit characters. -/
def isDigit (c : Char) : Bool := decide ('0' ≤ c) && decide (c ≤ '9')

/-- Value of a digit character. -/
def digitVal (c : Char) : ℕ := c.toNat - 48

/-- The character of a digit below 10. -/
def digitChar (d : ℕ) : Char :=
  match d with
  | 0 => '0'
  | 1 => '1'
  | 2 => '2'
  | 3 => '3'
  | 4 => '4'
  | 5 => '5'
  | 6 => '6'
  | 7 => '7'
  | 8 => '8'
  | _ => '9'

/-- Little-endian decimal digits of a natural number, with fuel; empty
for zero. -/
def natDigitsLE : ℕ → ℕ → List ℕ
  | 0, _ => []
  | fuel + 1, n => if n = 0 then [] else n % 10 :: natDigitsLE fuel (n / 10)

/-- Most-significant-first decimal digits; empty for zero. -/
def natDigits (n : ℕ) : List ℕ := (natDigitsLE (n + 1) n).reverse

/-- Decimal characters of a natural number (`"0"` for zero). -/
def natChars (n : ℕ) : List Char :=
  if n = 0 then ['0'] else (natDigits n).map digitChar

/-- `e` digits of a fraction value `f < 10 ^ e`, left-padded with
zeros. -/
def padDigits (e f : ℕ) : List ℕ :=
  List.replicate (e - (natDigits f).length) 0 ++ natDigits f

/-- The characters `JSON.stringify` prints for one number. -/
def printNum (d : DecNum) : List Char :=
  (if d.val.1 < 0 then ['-'] else []) ++
    (if d.val.2 = 0 then natChars d.val.1.natAbs
     else natChars (d.val.1.natAbs / 10 ^ d.val.2) ++
       '.' :: (padDigits d.val.2 (d.val.1.natAbs % 10 ^ d.val.2)).map digitChar)

/-- The tail of a printed JSON array after its first element: a comma
before each further element, then the closing bracket. -/
def arrTail (pr : α → List Char) : List α → List Char
  | [] => [']']
  | x :: t => ',' :: (pr x ++ arrTail pr t)

/-- A printed JSON array (`JSON.stringify` layout, no whitespace). -/
def arrChars (pr : α → List Char) : List α → List Char
  | [] => ['[', ']']
  | x :: t => '[' :: (pr x ++ arrTail pr t)

/-- `serializeFaceEncodings`: `JSON.stringify` of the array of
descriptor arrays. -/
def serializeFaceEncodings (l : List (List DecNum)) : String :=
  String.mk (arrChars (arrChars printNum) l)

/-- JSON whitespace. -/
def isWsChar (c : Char) : Bool :=
  c == ' ' || c == '\t' || c == '\n' || c == '\r'

/-- Skip JSON whitespace. -/
def skipWs (cs : List Char) : List Char := cs.dropWhile isWsChar

/-- Maximal digit run (fails when empty). -/
def parseDigits (cs : List Char) : Option (List ℕ × List Char) :=
  match cs.takeWhile isDigit with
  | [] => none
  | ds => some (ds.map digitVal, cs.dropWhile isDigit)

/-- Value of a most-significant-first digit list. -/
def digitsVal (ds : List ℕ) : ℕ := ds.foldl (fun a d => 10 * a + d) 0

/-- Strip trailing zeros from a raw mantissa/scale pair (the value
`JSON.parse` keeps does not remember trailing fractional zeros). -/
def normNum : ℕ → ℕ → ℕ × ℕ
  | m, 0 => (m, 0)
  | m, e + 1 => if m % 10 = 0 then normNum (m / 10) e else (m, e + 1)

/-- Build the canonical decimal for a parsed sign, raw mantissa and
scale. -/
def mkDecNum (neg : Bool) (m e : ℕ) : DecNum :=
  ⟨((if neg then -((normNum m e).1 : ℤ) else ((normNum m e).1 : ℤ)),
      (normNum m e).2),
    by
      have hok : ∀ (e m : ℕ), (normNum m e).2 = 0 ∨ ¬ 10 ∣ (normNum m e).1 := by
        intro e
        induction e with
        | zero => exact fun m => Or.inl rfl
        | succ e ih =>
          intro m
          rw [normNum]
          split_ifs with h
          · exact ih (m / 10)
          · refine Or.inr (fun hd => h ?_)
            have hd' : 10 ∣ m := hd
            omega
      rcases hok e m with h | h
      · exact Or.inl h
      · refine Or.inr ?_
        intro hd
        apply h
        have hd' : (10 : ℤ) ∣ ((normNum m e).1 : ℤ) := by
          rcases Bool.eq_false_or_eq_true neg with hn | hn
          · simpa [hn] using hd
          · simpa [hn, dvd_neg] using hd
        exact_mod_cast hd'⟩

/-- Parse one JSON number (optional sign, digits, optional fraction; no
exponents in the modelled subset), normalizing the value as
`JSON.parse` does. -/
def parseNumAux (neg : Bool) (cs : List Char) :
    Option (DecNum × List Char) :=
  match parseDigits cs with
  | none => none
  | some (ids, cs2) =>
    match cs2 with
    | [] => some (mkDecNum neg (digitsVal ids) 0, [])
    | c2 :: t2 =>
      if c2 = '.' then
        match parseDigits t2 with
        | none => none
        | some (fds, cs3) =>
          some (mkDecNum neg
            (digitsVal ids * 10 ^ fds.length + digitsVal fds) fds.length, cs3)
      else some (mkDecNum neg (digitsVal ids) 0, cs2)

/-- Parse one JSON number with its sign. -/
def parseNum (cs : List Char) : Option (DecNum × List Char) :=
  match cs with
  | [] => none
  | c :: t => if c = '-' then parseNumAux true t else parseNumAux false (c :: t)

/-- Parse the element list after the first element of an array: comma
and next element, or the closing bracket.  The fuel bounds the number of
elements. -/
def parseTail (pe : List Char → Option (α × List Char)) :
    ℕ → List Char → Option (List α × List Char)
  | 0, _ => none
  | fuel + 1, cs =>
    match skipWs cs with
    | [] => none
    | c :: cs1 =>
      if c = ',' then
        match pe (skipWs cs1) with
        | none => none
        | some (a, cs2) =>
          match parseTail pe fuel cs2 with
          | none => none
          | some (as, cs3) => some (a :: as, cs3)
      else if c = ']' then some ([], cs1)
      else none

/-- Parse a JSON array of elements parsed by `pe`. -/
def parseArr (pe : List Char → Option (α × List Char)) (fuel : ℕ)
    (cs : List Char) : Option (List α × List Char) :=
  match cs with
  | [] => none
  | c :: cs1 =>
    if c = '[' then
      match skipWs cs1 with
      | [] => none
      | c2 :: cs3 =>
        if c2 = ']' then some ([], cs3)
        else
          match pe (c2 :: cs3) with
          | none => none
          | some (a, cs4) =>
            match parseTail pe fuel cs4 with
            | none => none
            | some (as, cs5) => some (a :: as, cs5)
    else none

/-- Parse one inner descriptor array. -/
def parseInnerArr (cs : List Char) : Option (List DecNum × List Char) :=
  parseArr parseNum (cs.length + 1) cs

/-- `parseFaceEncodings`: parse the stored text; on any failure (the
source catches the `JSON.parse` exception) return the empty list. -/
def parseFaceEncodings (s : String) : List (List DecNum) :=
  match parseArr parseInnerArr ((skipWs s.data).length + 1) (skipWs s.data) with
  | some (l, rest) => if skipWs rest = [] then l else []
  | none => []

/-- `slice(-10)`: the most recent ten entries. -/
def sliceLast10 (l : List α) : List α := l.drop (l.length - 10)

/-- `addFaceEncoding`: deserialize the existing text (absent or
malformed becomes the empty list), append the new descriptor, keep the
most recent ten, re-serialize. -/
def addFaceEncoding (existing : Option String) (d : List DecNum) : String :=
  let ex := match existing with
    | none => []
    | some t => parseFaceEncodings t
  serializeFaceEncodings (sliceLast10 (ex ++ [d]))

/-- A context that may legally follow a printed number: empty, or headed
by a character that is neither a digit nor a decimal point (inside an
array: a comma or a closing bracket). -/
def NumRestOk (cs : List Char) : Prop :=
  ∀ c ∈ cs.head?, isDigit c = false ∧ c ≠ '.'

/-- The parsed contents of an optional stored text. -/
def parsedOf (t : Option String) : List (List DecNum) :=
  match t with
  | none => []
  | some s => parseFaceEncodings s

/-- Repeated sequential `addFaceEncoding` calls, threading the stored
text. -/
def addMany : Option String → List (List DecNum) → Option String
  | t, [] => t
  | t, d :: ds => addMany (some (addFaceEncoding t d)) ds

end TidyPhotos

namespace TidyPhotos

/-! ## Matcher lemmas -/

theorem foldl_min_le_init {l : List ℝ} {a : ℝ} : l.foldl min a ≤ a := by
  induction l generalizing a with
  | nil => simp
  | cons x t ih =>
    calc (x :: t).foldl min a = t.foldl min (min a x) := rfl
    _ ≤ min a x := ih
    _ ≤ a := min_le_left _ _

theorem foldl_min_le_mem {l : List ℝ} {a x : ℝ} (hx : x ∈ l) :
    l.foldl min a ≤ x := by
  induction l generalizing a with
  | nil => cases hx
  | cons y t ih =>
    rcases List.mem_cons.mp hx with rfl | hx
    · calc (x :: t).foldl min a = t.foldl min (min a x) := rfl
      _ ≤ min a x := foldl_min_le_init
      _ ≤ x := min_le_right _ _
    · exact ih hx

theorem foldl_min_eq_init {l : List ℝ} {a : ℝ} (h : l.foldl min a = a) :
    ∀ x ∈ l, a ≤ x := by
  induction l generalizing a with
  | nil => intro x hx; cases hx
  | cons y t ih =>
    intro x hx
    have hfold : t.foldl min (min a y) = a := h
    have h1 : t.foldl min (min a y) ≤ min a y := foldl_min_le_init
    have h2 : min a y = a := le_antisymm (min_le_left _ _) (hfold.symm.le.trans h1)
    have hfold' : t.foldl min a = a := by rw [h2] at hfold; exact hfold
    rcases List.mem_cons.mp hx with rfl | hx
    · exact min_eq_left_iff.mp h2
    · exact ih hfold' x hx

theorem matchStep_distance (cand : List ℝ) (best : FaceMatchResult)
    (k : KnownDescriptor) :
    (matchStep cand best k).distance
      = min best.distance (euclideanDistance cand k.descriptor) := by
  unfold matchStep
  by_cases h : euclideanDistance cand k.descriptor < best.distance
  · simp [h, min_eq_right h.le]
  · simp [h, min_eq_left (not_lt.mp h)]

theorem matchFold_distance (cand : List ℝ) (ks : List KnownDescriptor)
    (best : FaceMatchResult) :
    (ks.foldl (matchStep cand) best).distance
      = (ks.map (fun k => euclideanDistance cand k.descriptor)).foldl min
          best.distance := by
  induction ks generalizing best with
  | nil => rfl
  | cons k t ih =>
    have : (List.foldl (matchStep cand) best (k :: t))
        = List.foldl (matchStep cand) (matchStep cand best k) t := rfl
    rw [this, ih, List.map_cons, List.foldl_cons, matchStep_distance]

theorem matchFold_noUpdate (cand : List ℝ) (ks : List KnownDescriptor)
    (best : FaceMatchResult)
    (h : ∀ k ∈ ks, best.distance ≤ euclideanDistance cand k.descriptor) :
    ks.foldl (matchStep cand) best = best := by
  induction ks with
  | nil => rfl
  | cons k t ih =>
    have hk : best.distance ≤ euclideanDistance cand k.descriptor :=
      h k (List.mem_cons_self _ _)
    have hstep : matchStep cand best k = best := by
      unfold matchStep
      simp [not_lt.mpr hk]
    show List.foldl (matchStep cand) (matchStep cand best k) t = best
    rw [hstep]
    exact ih (fun k hk => h k (List.mem_cons_of_mem _ hk))

theorem matchStep_of_lt {cand : List ℝ} {best : FaceMatchResult}
    {k : KnownDescriptor}
    (h : euclideanDistance cand k.descriptor < best.distance) :
    matchStep cand best k
      = { personId := some k.personId
          confidence := max 0 (1 - euclideanDistance cand k.descriptor)
          distance := euclideanDistance cand k.descriptor
          isMatch := decide (euclideanDistance cand k.descriptor
              ≤ RECOGNITION_DISTANCE_THRESHOLD) } := by
  unfold matchStep
  simp [h]

theorem matchStep_of_ge {cand : List ℝ} {best : FaceMatchResult}
    {k : KnownDescriptor}
    (h : ¬ euclideanDistance cand k.descriptor < best.distance) :
    matchStep cand best k = best := by
  unfold matchStep
  simp [h]

theorem matchFold_found (cand : List ℝ) (m : ℝ) :
    ∀ (ks : List KnownDescriptor) (best : FaceMatchResult),
    (ks.map (fun k => euclideanDistance cand k.descriptor)).foldl min
        best.distance = m →
    m < best.distance →
    ∃ k, ks.find? (fun k =>
            decide (euclideanDistance cand k.descriptor = m)) = some k
      ∧ ks.foldl (matchStep cand) best
          = { personId := some k.personId
              confidence := max 0 (1 - m)
              distance := m
              isMatch := decide (m ≤ RECOGNITION_DISTANCE_THRESHOLD) } := by
  intro ks
  induction ks with
  | nil =>
    intro best hm h
    simp at hm
    exact absurd (hm ▸ h) (lt_irrefl _)
  | cons k t ih =>
    intro best hm h
    have hm' : (t.map (fun k => euclideanDistance cand k.descriptor)).foldl
        min (min best.distance (euclideanDistance cand k.descriptor)) = m := by
      rw [← hm, List.map_cons, List.foldl_cons]
    by_cases hlt : euclideanDistance cand k.descriptor < best.distance
    · -- the head entry replaces the running best immediately
      have hmin : min best.distance (euclideanDistance cand k.descriptor)
          = euclideanDistance cand k.descriptor := min_eq_right hlt.le
      rw [hmin] at hm'
      by_cases hmd : m < euclideanDistance cand k.descriptor
      · -- the overall minimum is attained strictly later in the roster
        obtain ⟨k', hfind, hres⟩ := ih
          (matchStep cand best k) (by rw [matchStep_of_lt hlt]; exact hm')
          (by rw [matchStep_of_lt hlt]; exact hmd)
        refine ⟨k', ?_, ?_⟩
        · rw [List.find?_cons_of_neg _ (by simpa using (ne_of_gt hmd))]
          exact hfind
        · exact hres
      · -- the head attains the overall minimum; later entries never win
        have hle : m ≤ euclideanDistance cand k.descriptor :=
          hm' ▸ foldl_min_le_init
        have heq : euclideanDistance cand k.descriptor = m :=
          le_antisymm (not_lt.mp hmd) hle
        have hbound := foldl_min_eq_init (heq ▸ hm')
        refine ⟨k, List.find?_cons_of_pos _ (by simpa using heq), ?_⟩
        show List.foldl (matchStep cand) (matchStep cand best k) t = _
        rw [matchStep_of_lt hlt,
          matchFold_noUpdate cand t _ (by
            intro k' hk'
            simpa using heq.symm ▸ hbound _ (List.mem_map_of_mem _ hk')),
          heq]
    · -- the head entry does not replace the running best
      have hmin : min best.distance (euclideanDistance cand k.descriptor)
          = best.distance := min_eq_left (not_lt.mp hlt)
      rw [hmin] at hm'
      obtain ⟨k', hfind, hres⟩ := ih best hm' h
      have hne : euclideanDistance cand k.descriptor ≠ m :=
        ne_of_gt (lt_of_lt_of_le h (not_lt.mp hlt))
      refine ⟨k', ?_, ?_⟩
      · rw [List.find?_cons_of_neg _ (by simpa using hne)]
        exact hfind
      · show List.foldl (matchStep cand) (matchStep cand best k) t = _
        rw [matchStep_of_ge hlt]
        exact hres

theorem euclideanDistance_nonneg (a b : List ℝ) :
    0 ≤ euclideanDistance a b :=
  Real.sqrt_nonneg _

theorem emptyMatch_invariant : MatchInvariant emptyMatch := by
  refine ⟨by norm_num [emptyMatch], by norm_num [emptyMatch], ?_⟩
  norm_num [emptyMatch, RECOGNITION_DISTANCE_THRESHOLD]

theorem matchStep_invariant {cand : List ℝ} {best : FaceMatchResult}
    (k : KnownDescriptor) (h : MatchInvariant best) :
    MatchInvariant (matchStep cand best k) := by
  by_cases hlt : euclideanDistance cand k.descriptor < best.distance
  · rw [matchStep_of_lt hlt]
    exact ⟨rfl, euclideanDistance_nonneg _ _, by simp⟩
  · rw [matchStep_of_ge hlt]
    exact h

theorem matchFold_invariant (cand : List ℝ) (ks : List KnownDescriptor) :
    ∀ best : FaceMatchResult, MatchInvariant best →
    MatchInvariant (ks.foldl (matchStep cand) best) := by
  induction ks with
  | nil => exact fun best h => h
  | cons k t ih =>
    intro best h
    exact ih _ (matchStep_invariant k h)

theorem findBestMatch_invariant (cand : List ℝ)
    (roster : List KnownDescriptor) :
    MatchInvariant (findBestMatch cand roster) := by
  unfold findBestMatch
  split_ifs with h
  · exact emptyMatch_invariant
  · exact matchFold_invariant cand roster emptyMatch emptyMatch_invariant

theorem getConfidenceLevel_eq_low_iff (c : ℝ) :
    getConfidenceLevel c = ConfidenceLevel.low ↔ c < 0.6 := by
  unfold getConfidenceLevel HIGH_CONFIDENCE_THRESHOLD MEDIUM_CONFIDENCE_THRESHOLD
  split_ifs with h1 h2
  · simp only [reduceCtorEq, false_iff, not_lt]
    linarith
  · simp only [reduceCtorEq, false_iff, not_lt]
    linarith
  · simp only [true_iff]
    linarith [not_le.mp h2]

theorem getConfidenceLevel_eq_medium_iff (c : ℝ) :
    getConfidenceLevel c = ConfidenceLevel.medium ↔ 0.6 ≤ c ∧ c < 0.8 := by
  unfold getConfidenceLevel HIGH_CONFIDENCE_THRESHOLD MEDIUM_CONFIDENCE_THRESHOLD
  split_ifs with h1 h2
  · simp only [reduceCtorEq, false_iff, not_and, not_lt]
    intro _
    linarith
  · simp only [true_iff]
    exact ⟨h2, not_le.mp h1⟩
  · simp only [reduceCtorEq, false_iff, not_and, not_lt]
    intro hc
    exact absurd hc h2

theorem getConfidenceLevel_eq_high_iff (c : ℝ) :
    getConfidenceLevel c = ConfidenceLevel.high ↔ 0.8 ≤ c := by
  unfold getConfidenceLevel HIGH_CONFIDENCE_THRESHOLD MEDIUM_CONFIDENCE_THRESHOLD
  split_ifs with h1 h2
  · simp only [true_iff]
    exact h1
  · simp only [reduceCtorEq, false_iff, not_le]
    exact not_le.mp h1
  · simp only [reduceCtorEq, false_iff, not_le]
    exact not_le.mp h1

theorem shouldAutoConfirm_iff_high (c : ℝ) :
    shouldAutoConfirm c = true ↔ getConfidenceLevel c = ConfidenceLevel.high := by
  rw [getConfidenceLevel_eq_high_iff]
  unfold shouldAutoConfirm HIGH_CONFIDENCE_THRESHOLD
  simp

theorem shouldSuggest_iff (c : ℝ) :
    shouldSuggest c = true ↔ 0.6 ≤ c := by
  unfold shouldSuggest MEDIUM_CONFIDENCE_THRESHOLD
  simp

/-! ## Claim theorems for the matcher -/

/-- C9: matching any candidate descriptor against an empty roster returns
exactly confidence 0, distance 1, no match, and no identity. -/
theorem C9_empty_roster (d : List ℝ) :
    findBestMatch d []
      = { personId := none, confidence := 0, distance := 1, isMatch := false } := by
  unfold findBestMatch
  simp [emptyMatch]

/-- C8: the result of `findBestMatch` always satisfies
`confidence = max 0 (1 - distance)`, hence `confidence ∈ [0,1]`; `isMatch`
holds exactly when the returned distance is at most 0.45; the tier of the
returned confidence is low below 0.6, medium in [0.6, 0.8), high at or
above 0.8; auto-confirmation happens exactly at tier high and suggestion
exactly at confidence at least 0.6. -/
theorem C8_confidence_contract (cand : List ℝ)
    (roster : List KnownDescriptor) :
    (findBestMatch cand roster).confidence
        = max 0 (1 - (findBestMatch cand roster).distance)
    ∧ 0 ≤ (findBestMatch cand roster).confidence
    ∧ (findBestMatch cand roster).confidence ≤ 1
    ∧ ((findBestMatch cand roster).isMatch = true
        ↔ (findBestMatch cand roster).distance ≤ 0.45)
    ∧ (getConfidenceLevel (findBestMatch cand roster).confidence
        = ConfidenceLevel.low
        ↔ (findBestMatch cand roster).confidence < 0.6)
    ∧ (getConfidenceLevel (findBestMatch cand roster).confidence
        = ConfidenceLevel.medium
        ↔ 0.6 ≤ (findBestMatch cand roster).confidence
            ∧ (findBestMatch cand roster).confidence < 0.8)
    ∧ (getConfidenceLevel (findBestMatch cand roster).confidence
        = ConfidenceLevel.high
        ↔ 0.8 ≤ (findBestMatch cand roster).confidence)
    ∧ (shouldAutoConfirm (findBestMatch cand roster).confidence = true
        ↔ getConfidenceLevel (findBestMatch cand roster).confidence
            = ConfidenceLevel.high)
    ∧ (shouldSuggest (findBestMatch cand roster).confidence = true
        ↔ 0.6 ≤ (findBestMatch cand roster).confidence) := by
  obtain ⟨hc, hd, hm⟩ := findBestMatch_invariant cand roster
  refine ⟨hc, ?_, ?_, ?_, getConfidenceLevel_eq_low_iff _,
    getConfidenceLevel_eq_medium_iff _, getConfidenceLevel_eq_high_iff _,
    shouldAutoConfirm_iff_high _, shouldSuggest_iff _⟩
  · rw [hc]
    exact le_max_left _ _
  · rw [hc]
    apply max_le (by norm_num)
    linarith
  · rw [hm]
    unfold RECOGNITION_DISTANCE_THRESHOLD
    exact Iff.rfl

/-- C1 counterexample: for the candidate `[2]` and the one-entry roster
`[(identity 1, [0])]` the true minimum Euclidean distance is 2, but
`findBestMatch` returns the sentinel distance 1 and no identity, because
the scan only replaces the running best on a distance strictly below the
initial sentinel distance 1. -/
theorem C1_counterexample :
    euclideanDistance [(2 : ℝ)] [0] = 2
    ∧ (findBestMatch [(2 : ℝ)]
        [{ personId := 1, descriptor := [0] }]).distance = 1
    ∧ (findBestMatch [(2 : ℝ)]
        [{ personId := 1, descriptor := [0] }]).distance
        ≠ euclideanDistance [(2 : ℝ)] [0]
    ∧ (findBestMatch [(2 : ℝ)]
        [{ personId := 1, descriptor := [0] }]).personId = none := by
  have h2 : euclideanDistance [(2 : ℝ)] [0] = 2 := by
    unfold euclideanDistance
    norm_num
    rw [show (4 : ℝ) = 2 ^ 2 by norm_num, Real.sqrt_sq (by norm_num)]
  have hres : findBestMatch [(2 : ℝ)] [{ personId := 1, descriptor := [0] }]
      = emptyMatch := by
    unfold findBestMatch
    simp only [List.length_cons, List.length_nil, List.foldl_cons,
      List.foldl_nil]
    rw [if_neg (by norm_num), matchStep_of_ge]
    rw [h2]
    norm_num [emptyMatch]
  refine ⟨h2, ?_, ?_, ?_⟩ <;> rw [hres] <;> norm_num [emptyMatch, h2]

/-- C1 (amended): the returned distance is the minimum of the sentinel 1
and all roster distances (so it equals the true minimum exactly when some
roster entry lies at distance below 1); it is always a lower bound on the
roster distances; when the minimum is below 1 the first-encountered entry
attaining it supplies the identity and all result fields; when every
entry is at distance at least 1 the sentinel result with no identity is
returned. -/
theorem C1_best_distance (cand : List ℝ) (roster : List KnownDescriptor)
    (hne : roster ≠ []) :
    (findBestMatch cand roster).distance
        = (rosterDistances cand roster).foldl min 1
    ∧ (∀ k ∈ roster, (findBestMatch cand roster).distance
        ≤ euclideanDistance cand k.descriptor)
    ∧ ((rosterDistances cand roster).foldl min 1 < 1 →
        ∃ k, roster.find? (fun k => decide (euclideanDistance cand k.descriptor
                = (rosterDistances cand roster).foldl min 1)) = some k
          ∧ findBestMatch cand roster
              = { personId := some k.personId
                  confidence := max 0
                    (1 - (rosterDistances cand roster).foldl min 1)
                  distance := (rosterDistances cand roster).foldl min 1
                  isMatch := decide ((rosterDistances cand roster).foldl min 1
                      ≤ RECOGNITION_DISTANCE_THRESHOLD) })
    ∧ ((∀ k ∈ roster, 1 ≤ euclideanDistance cand k.descriptor) →
        findBestMatch cand roster
          = { personId := none, confidence := 0, distance := 1,
              isMatch := false }) := by
  have hlen : ¬ roster.length = 0 := by
    simpa [List.length_eq_zero] using hne
  have hfold : findBestMatch cand roster
      = roster.foldl (matchStep cand) emptyMatch := by
    unfold findBestMatch
    rw [if_neg hlen]
  have he : emptyMatch.distance = (1 : ℝ) := rfl
  have hdist : (findBestMatch cand roster).distance
      = (rosterDistances cand roster).foldl min 1 := by
    rw [hfold, matchFold_distance, he]
    simp only [rosterDistances]
  refine ⟨hdist, ?_, ?_, ?_⟩
  · intro k hk
    rw [hdist]
    have hmem : euclideanDistance cand k.descriptor
        ∈ rosterDistances cand roster := by
      simp only [rosterDistances]
      exact List.mem_map_of_mem _ hk
    exact foldl_min_le_mem hmem
  · intro hlt
    have hm1 : (roster.map
        (fun k => euclideanDistance cand k.descriptor)).foldl min
        emptyMatch.distance = (rosterDistances cand roster).foldl min 1 := by
      rw [he]
      simp only [rosterDistances]
    have hlt' : (rosterDistances cand roster).foldl min 1
        < emptyMatch.distance := by
      rw [he]
      exact hlt
    obtain ⟨k, hfind, hres⟩ := matchFold_found cand
      ((rosterDistances cand roster).foldl min 1) roster emptyMatch hm1 hlt'
    refine ⟨k, hfind, ?_⟩
    rw [hfold]
    exact hres
  · intro hall
    rw [hfold, matchFold_noUpdate cand roster emptyMatch
      (fun k hk => by rw [he]; exact hall k hk)]
    rfl

/-- Witness for C1: the candidate `[0]` against the roster
`[(identity 7, [0])]` is at distance 0 from the sole entry, below 1, so
the amended theorem yields the identity 7 with distance 0. -/
theorem C1_witness :
    ∃ k : KnownDescriptor,
      List.find? (fun k => decide (euclideanDistance [(0 : ℝ)] k.descriptor
            = (rosterDistances [(0 : ℝ)]
                [{ personId := 7, descriptor := [0] }]).foldl min 1))
          [{ personId := 7, descriptor := ([0] : List ℝ) }] = some k
      ∧ findBestMatch [(0 : ℝ)] [{ personId := 7, descriptor := [0] }]
          = { personId := some k.personId
              confidence := max 0 (1 - (rosterDistances [(0 : ℝ)]
                  [{ personId := 7, descriptor := [0] }]).foldl min 1)
              distance := (rosterDistances [(0 : ℝ)]
                  [{ personId := 7, descriptor := [0] }]).foldl min 1
              isMatch := decide ((rosterDistances [(0 : ℝ)]
                  [{ personId := 7, descriptor := [0] }]).foldl min 1
                  ≤ RECOGNITION_DISTANCE_THRESHOLD) } :=
  (C1_best_distance [(0 : ℝ)] [{ personId := 7, descriptor := [0] }]
    (by simp)).2.2.1 (by
      unfold rosterDistances euclideanDistance
      norm_num)

/-! ## Viewer lemmas -/

theorem finishDrawingTag_tags (s : ViewerState) (x y : ℚ) (b : Bool) :
    ((finishDrawingTag s x y b).1).currentFaceTags = s.currentFaceTags := by
  rcases s with ⟨cp, tm, dt, dsp, osp, dr, tags⟩
  cases dt <;> cases dsp <;> cases osp <;>
    simp only [finishDrawingTag] <;>
    split_ifs <;> rfl

theorem finishDrawingTag_photo (s : ViewerState) (x y : ℚ) (b : Bool) :
    ((finishDrawingTag s x y b).1).currentPhoto = s.currentPhoto := by
  rcases s with ⟨cp, tm, dt, dsp, osp, dr, tags⟩
  cases dt <;> cases dsp <;> cases osp <;>
    simp only [finishDrawingTag] <;>
    split_ifs <;> rfl

theorem finishDrawingTag_req (s : ViewerState) (x y : ℚ) (b : Bool)
    (r : CreateReq) (h : (finishDrawingTag s x y b).2 = some r) :
    r.confidence = 1 ∧ r.isManual = true ∧ r.personId = none := by
  rcases s with ⟨cp, tm, dt, dsp, osp, dr, tags⟩
  cases dt
  · simp [finishDrawingTag] at h
  cases dsp
  · simp [finishDrawingTag] at h
  cases osp
  · simp [finishDrawingTag] at h
  simp only [finishDrawingTag] at h
  split_ifs at h
  all_goals simp only at h
  all_goals
    first
      | (rw [Option.some_inj] at h
         rw [← h]
         exact ⟨rfl, rfl, rfl⟩)
      | simp at h

theorem startDrawingTag_tags (s : ViewerState) (x y : ℚ) :
    ((startDrawingTag s x y).1).currentFaceTags = s.currentFaceTags := by
  unfold startDrawingTag
  dsimp only
  split_ifs with h1 h2
  · rw [finishDrawingTag_tags]
  · rfl
  · rfl

theorem startDrawingTag_photo (s : ViewerState) (x y : ℚ) :
    ((startDrawingTag s x y).1).currentPhoto = s.currentPhoto := by
  unfold startDrawingTag
  dsimp only
  split_ifs with h1 h2
  · rw [finishDrawingTag_photo]
  · rfl
  · rfl

theorem updateDrawingTag_tags (s : ViewerState) (x y : ℚ) :
    (updateDrawingTag s x y).currentFaceTags = s.currentFaceTags := by
  rcases s with ⟨cp, tm, dt, dsp, osp, dr, tags⟩
  cases dt <;> cases dsp <;> cases osp <;>
    simp only [updateDrawingTag] <;>
    split_ifs <;> rfl

theorem updateDrawingTag_photo (s : ViewerState) (x y : ℚ) :
    (updateDrawingTag s x y).currentPhoto = s.currentPhoto := by
  rcases s with ⟨cp, tm, dt, dsp, osp, dr, tags⟩
  cases dt <;> cases dsp <;> cases osp <;>
    simp only [updateDrawingTag] <;>
    split_ifs <;> rfl

theorem startDrawingTag_begin {s : ViewerState} (a b : ℚ)
    (htag : s.taggingMode = true) (hnd : s.isDrawingTag = false) :
    startDrawingTag s a b
      = ({ s with
            isDragging := false
            isDrawingTag := true
            originalStartPos := some { x := a, y := b }
            drawStartPos := some { x := a, y := b, width := 0, height := 0 } },
          none) := by
  rcases s with ⟨cp, tm, dt, dsp, osp, dr, tags⟩
  simp only at htag hnd
  subst htag hnd
  rfl

theorem updateDrawingTag_small {s : ViewerState} {a b px py : ℚ}
    (hA : Anchored s a b) (hdr : s.isDragging = false)
    (hx : |px - a| ≤ 2) (hy : |py - b| ≤ 2) :
    updateDrawingTag s px py = s := by
  obtain ⟨hdt, hosp, hdsp⟩ := hA
  obtain ⟨r0, hr0⟩ := Option.isSome_iff_exists.mp hdsp
  rcases s with ⟨cp, tm, dt, dsp, osp, dr, tags⟩
  simp only at hdt hosp hdr hr0
  subst hdt hosp hdr hr0
  simp only [updateDrawingTag, not_lt.mpr hx, not_lt.mpr hy, false_or,
    false_and, if_false, Bool.false_eq_true]

theorem updateDrawingTag_anchored {s : ViewerState} {a b px py : ℚ}
    (hA : Anchored s a b) : Anchored (updateDrawingTag s px py) a b := by
  obtain ⟨hdt, hosp, hdsp⟩ := hA
  obtain ⟨r0, hr0⟩ := Option.isSome_iff_exists.mp hdsp
  rcases s with ⟨cp, tm, dt, dsp, osp, dr, tags⟩
  simp only at hdt hosp hr0
  subst hdt hosp hr0
  simp only [updateDrawingTag]
  split_ifs <;> exact ⟨rfl, rfl, rfl⟩

theorem updateDrawingTag_drag_mono {s : ViewerState} {px py : ℚ}
    (h : s.isDragging = true) :
    (updateDrawingTag s px py).isDragging = true := by
  rcases s with ⟨cp, tm, dt, dsp, osp, dr, tags⟩
  simp only at h
  subst h
  cases dt <;> cases dsp <;> cases osp <;>
    simp only [updateDrawingTag] <;> split_ifs <;> rfl

theorem updateDrawingTag_sets_drag {s : ViewerState} {a b px py : ℚ}
    (hA : Anchored s a b) (hbig : 2 < |px - a| ∨ 2 < |py - b|) :
    (updateDrawingTag s px py).isDragging = true := by
  obtain ⟨hdt, hosp, hdsp⟩ := hA
  obtain ⟨r0, hr0⟩ := Option.isSome_iff_exists.mp hdsp
  rcases s with ⟨cp, tm, dt, dsp, osp, dr, tags⟩
  simp only at hdt hosp hr0
  subst hdt hosp hr0
  cases dr <;>
    simp only [updateDrawingTag, hbig] <;> split_ifs <;> simp_all

theorem runUpdates_anchored {s : ViewerState} {a b : ℚ} (us : List Pt)
    (hA : Anchored s a b) : Anchored (runUpdates s us) a b := by
  induction us generalizing s with
  | nil => exact hA
  | cons p t ih => exact ih (updateDrawingTag_anchored hA)

theorem runUpdates_small {s : ViewerState} {a b : ℚ} {us : List Pt}
    (hA : Anchored s a b) (hdr : s.isDragging = false)
    (hsmall : ∀ p ∈ us, |p.x - a| ≤ 2 ∧ |p.y - b| ≤ 2) :
    runUpdates s us = s := by
  induction us generalizing s with
  | nil => rfl
  | cons p t ih =>
    have hp := hsmall p (List.mem_cons_self _ _)
    have hstep : updateDrawingTag s p.x p.y = s :=
      updateDrawingTag_small hA hdr hp.1 hp.2
    show runUpdates (updateDrawingTag s p.x p.y) t = s
    rw [hstep]
    exact ih hA hdr (fun q hq => hsmall q (List.mem_cons_of_mem _ hq))

theorem runUpdates_drag_mono {s : ViewerState} {us : List Pt}
    (h : s.isDragging = true) : (runUpdates s us).isDragging = true := by
  induction us generalizing s with
  | nil => exact h
  | cons p t ih => exact ih (updateDrawingTag_drag_mono h)

theorem runUpdates_dragged {s : ViewerState} {a b : ℚ} {us : List Pt}
    (hA : Anchored s a b)
    (hbig : ∃ p ∈ us, 2 < |p.x - a| ∨ 2 < |p.y - b|) :
    (runUpdates s us).isDragging = true := by
  induction us generalizing s with
  | nil => obtain ⟨p, hp, _⟩ := hbig; cases hp
  | cons p t ih =>
    obtain ⟨q, hq, hqbig⟩ := hbig
    show (runUpdates (updateDrawingTag s p.x p.y) t).isDragging = true
    rcases List.mem_cons.mp hq with rfl | hq
    · exact runUpdates_drag_mono (updateDrawingTag_sets_drag hA hqbig)
    · exact ih (updateDrawingTag_anchored hA) ⟨q, hq, hqbig⟩

theorem finishDrawingTag_await {s : ViewerState} (x y : ℚ)
    (hdr : s.isDragging = false) :
    finishDrawingTag s x y false = (s, none) := by
  rcases s with ⟨cp, tm, dt, dsp, osp, dr, tags⟩
  simp only at hdr
  subst hdr
  cases dt <;> cases dsp <;> cases osp <;> rfl

theorem finishDrawingTag_commit {s : ViewerState} {a b : ℚ} (x y : ℚ)
    (cc : Bool) (hA : Anchored s a b) (hcc : (cc || s.isDragging) = true)
    (hsz : (if cc then (1 : ℚ) else 2) < |x - a|
        ∧ (if cc then (1 : ℚ) else 2) < |y - b|) :
    finishDrawingTag s x y cc
      = (resetDraw s,
          some { x := min a x, y := min b y, width := |x - a|,
                 height := |y - b|, personId := none, confidence := 1,
                 isManual := true }) := by
  obtain ⟨hdt, hosp, hdsp⟩ := hA
  obtain ⟨r0, hr0⟩ := Option.isSome_iff_exists.mp hdsp
  rcases s with ⟨cp, tm, dt, dsp, osp, dr, tags⟩
  simp only at hdt hosp hr0
  subst hdt hosp hr0
  have hcc' : (cc || dr) = true := hcc
  simp [finishDrawingTag, hcc', hsz.1, hsz.2, resetDraw]

theorem finishDrawingTag_abandon {s : ViewerState} {a b : ℚ} (x y : ℚ)
    (cc : Bool) (hA : Anchored s a b) (hcc : (cc || s.isDragging) = true)
    (hsz : ¬ ((if cc then (1 : ℚ) else 2) < |x - a|
        ∧ (if cc then (1 : ℚ) else 2) < |y - b|)) :
    finishDrawingTag s x y cc = (resetDraw s, none) := by
  obtain ⟨hdt, hosp, hdsp⟩ := hA
  obtain ⟨r0, hr0⟩ := Option.isSome_iff_exists.mp hdsp
  rcases s with ⟨cp, tm, dt, dsp, osp, dr, tags⟩
  simp only at hdt hosp hr0
  subst hdt hosp hr0
  have hcc' : (cc || dr) = true := hcc
  have hcc'' : (dr || cc) = true := by
    rw [Bool.or_comm]
    exact hcc'
  simp [finishDrawingTag, hcc', hcc'', resetDraw, hsz]

/-! ## Claim theorems for the draw controller -/

/-- C2 counterexample: in tagging mode, a click at (10,10) followed by a
second click at (11,11) does not commit any tag: the resulting 1-by-1
rectangle fails the strict `width > 1 && height > 1` check of the
click-click path (the session is discarded instead). -/
theorem C2_counterexample :
    (startDrawingTag (startDrawingTag
      { currentPhoto := some "A", taggingMode := true, isDrawingTag := false,
        drawStartPos := none, originalStartPos := none, isDragging := false,
        currentFaceTags := [] } 10 10).1 11 11).2 = none
    ∧ (startDrawingTag (startDrawingTag
      { currentPhoto := some "A", taggingMode := true, isDrawingTag := false,
        drawStartPos := none, originalStartPos := none, isDragging := false,
        currentFaceTags := [] } 10 10).1 11 11).1.isDrawingTag = false := by
  constructor <;> norm_num [startDrawingTag, finishDrawingTag]

/-- C2 (amended): starting from a clean tagging-mode state, a first click
at `(a, b)`, any movement staying within the 2-point drag threshold, and
a second click at `(x, y)` commit exactly when both `|x - a|` and
`|y - b|` strictly exceed the 1-point minimum; the committed request is
the rectangle spanned by the two clicks, and the second click always ends
the session (the (10,10)/(11,11) pair of the original claim produces a
width and height of exactly 1 and is therefore not committed; for example
(10,10) then (12,12) commits x 10, y 10, width 2, height 2). -/
theorem C2_click_click (s : ViewerState) (a b : ℚ) (us : List Pt) (x y : ℚ)
    (htag : s.taggingMode = true) (hnd : s.isDrawingTag = false)
    (hsmall : ∀ p ∈ us, |p.x - a| ≤ 2 ∧ |p.y - b| ≤ 2) :
    ((startDrawingTag (runUpdates (startDrawingTag s a b).1 us) x y).2 ≠ none
        ↔ 1 < |x - a| ∧ 1 < |y - b|)
    ∧ (∀ r, (startDrawingTag (runUpdates (startDrawingTag s a b).1 us) x y).2
          = some r →
        r = { x := min a x, y := min b y, width := |x - a|, height := |y - b|,
              personId := none, confidence := 1, isManual := true })
    ∧ (startDrawingTag (runUpdates (startDrawingTag s a b).1 us) x y).1
        = resetDraw (runUpdates (startDrawingTag s a b).1 us) := by
  rcases s with ⟨cp, tm, dt, dsp, osp, dr, tags⟩
  simp only at htag hnd
  subst htag hnd
  rw [startDrawingTag_begin a b rfl rfl]
  have hA : Anchored
      { currentPhoto := cp, taggingMode := true, isDrawingTag := true,
        drawStartPos := some { x := a, y := b, width := 0, height := 0 },
        originalStartPos := some { x := a, y := b }, isDragging := false,
        currentFaceTags := tags } a b := ⟨rfl, rfl, rfl⟩
  rw [runUpdates_small hA rfl hsmall]
  have hfin : ∀ u v : ℚ,
      startDrawingTag
        { currentPhoto := cp, taggingMode := true, isDrawingTag := true,
          drawStartPos := some { x := a, y := b, width := 0, height := 0 },
          originalStartPos := some { x := a, y := b }, isDragging := false,
          currentFaceTags := tags } u v
      = finishDrawingTag
        { currentPhoto := cp, taggingMode := true, isDrawingTag := true,
          drawStartPos := some { x := a, y := b, width := 0, height := 0 },
          originalStartPos := some { x := a, y := b }, isDragging := false,
          currentFaceTags := tags } u v true := fun u v => rfl
  rw [hfin x y]
  by_cases hsz : 1 < |x - a| ∧ 1 < |y - b|
  · rw [finishDrawingTag_commit x y true hA rfl
      (by simpa using hsz)]
    refine ⟨by simp [hsz], ?_, rfl⟩
    intro r hr
    rw [Option.some_inj] at hr
    exact hr.symm
  · rw [finishDrawingTag_abandon x y true hA rfl
      (by simpa using hsz)]
    refine ⟨by simp [hsz], ?_, rfl⟩
    intro r hr
    exact absurd hr (by simp)

/-- Witness for C2: clicks at (10,10) then (12,12) with no movement in
between commit the 2-by-2 rectangle at (10,10). -/
theorem C2_witness :
    ((startDrawingTag (runUpdates (startDrawingTag
        { currentPhoto := some "A", taggingMode := true, isDrawingTag := false,
          drawStartPos := none, originalStartPos := none, isDragging := false,
          currentFaceTags := [] } 10 10).1 []) 12 12).2 ≠ none
        ↔ 1 < |(12 : ℚ) - 10| ∧ 1 < |(12 : ℚ) - 10|)
    ∧ (∀ r, (startDrawingTag (runUpdates (startDrawingTag
        { currentPhoto := some "A", taggingMode := true, isDrawingTag := false,
          drawStartPos := none, originalStartPos := none, isDragging := false,
          currentFaceTags := [] } 10 10).1 []) 12 12).2 = some r →
        r = { x := min 10 12, y := min 10 12, width := |(12 : ℚ) - 10|,
              height := |(12 : ℚ) - 10|, personId := none, confidence := 1,
              isManual := true })
    ∧ (startDrawingTag (runUpdates (startDrawingTag
        { currentPhoto := some "A", taggingMode := true, isDrawingTag := false,
          drawStartPos := none, originalStartPos := none, isDragging := false,
          currentFaceTags := [] } 10 10).1 []) 12 12).1
        = resetDraw (runUpdates (startDrawingTag
        { currentPhoto := some "A", taggingMode := true, isDrawingTag := false,
          drawStartPos := none, originalStartPos := none, isDragging := false,
          currentFaceTags := [] } 10 10).1 []) :=
  C2_click_click
    { currentPhoto := some "A", taggingMode := true, isDrawingTag := false,
      drawStartPos := none, originalStartPos := none, isDragging := false,
      currentFaceTags := [] } 10 10 [] 12 12 rfl rfl (by simp)

/-- C3: for a drag gesture from a clean tagging-mode state anchored at
`(a, b)`: if every pointer position stays within 2 points of the anchor
in both axes, the release commits nothing; once some position moved
beyond 2 points in either axis, the release at `(x, y)` commits exactly
when the resulting width and height strictly exceed 2, the committed
rectangle is the normalized min/max box of the anchor and the release
point, and the session always resets to idle. -/
theorem C3_drag_gesture (s : ViewerState) (a b : ℚ) (us : List Pt) (x y : ℚ)
    (htag : s.taggingMode = true) (hnd : s.isDrawingTag = false) :
    ((∀ p ∈ us, |p.x - a| ≤ 2 ∧ |p.y - b| ≤ 2) →
        (finishDrawingTag (runUpdates (startDrawingTag s a b).1 us)
          x y false).2 = none)
    ∧ ((∃ p ∈ us, 2 < |p.x - a| ∨ 2 < |p.y - b|) →
        (((finishDrawingTag (runUpdates (startDrawingTag s a b).1 us)
              x y false).2 ≠ none
            ↔ 2 < |x - a| ∧ 2 < |y - b|)
          ∧ (∀ r, (finishDrawingTag (runUpdates (startDrawingTag s a b).1 us)
                x y false).2 = some r →
              r = { x := min a x, y := min b y, width := |x - a|,
                    height := |y - b|, personId := none, confidence := 1,
                    isManual := true })
          ∧ (finishDrawingTag (runUpdates (startDrawingTag s a b).1 us)
                x y false).1
              = resetDraw (runUpdates (startDrawingTag s a b).1 us))) := by
  rcases s with ⟨cp, tm, dt, dsp, osp, dr, tags⟩
  simp only at htag hnd
  subst htag hnd
  rw [startDrawingTag_begin a b rfl rfl]
  have hA : Anchored
      { currentPhoto := cp, taggingMode := true, isDrawingTag := true,
        drawStartPos := some { x := a, y := b, width := 0, height := 0 },
        originalStartPos := some { x := a, y := b }, isDragging := false,
        currentFaceTags := tags } a b := ⟨rfl, rfl, rfl⟩
  constructor
  · intro hsmall
    rw [runUpdates_small hA rfl hsmall, finishDrawingTag_await x y rfl]
  · intro hbig
    have hA2 := runUpdates_anchored us hA
    have hdrag := runUpdates_dragged hA hbig
    have hcc : (false || (runUpdates
        { currentPhoto := cp, taggingMode := true, isDrawingTag := true,
          drawStartPos := some { x := a, y := b, width := 0, height := 0 },
          originalStartPos := some { x := a, y := b }, isDragging := false,
          currentFaceTags := tags } us).isDragging) = true := by
      rw [Bool.false_or]
      exact hdrag
    by_cases hsz : 2 < |x - a| ∧ 2 < |y - b|
    · rw [finishDrawingTag_commit x y false hA2 hcc (by simpa using hsz)]
      refine ⟨by simp [hsz], ?_, rfl⟩
      intro r hr
      rw [Option.some_inj] at hr
      exact hr.symm
    · rw [finishDrawingTag_abandon x y false hA2 hcc (by simpa using hsz)]
      refine ⟨by simp [hsz], ?_, rfl⟩
      intro r hr
      exact absurd hr (by simp)

/-- Witness for C3: a drag from (10,10) to (40,40) commits the rectangle
x 10, y 10, width 30, height 30 (Scenario C), and a drag whose release
yields a 1-by-1 box commits nothing. -/
theorem C3_witness :
    ((finishDrawingTag (runUpdates (startDrawingTag
        { currentPhoto := some "A", taggingMode := true, isDrawingTag := false,
          drawStartPos := none, originalStartPos := none, isDragging := false,
          currentFaceTags := [] } 10 10).1 [{ x := 40, y := 40 }])
          40 40 false).2 ≠ none
        ↔ 2 < |(40 : ℚ) - 10| ∧ 2 < |(40 : ℚ) - 10|)
    ∧ (∀ r, (finishDrawingTag (runUpdates (startDrawingTag
        { currentPhoto := some "A", taggingMode := true, isDrawingTag := false,
          drawStartPos := none, originalStartPos := none, isDragging := false,
          currentFaceTags := [] } 10 10).1 [{ x := 40, y := 40 }])
          40 40 false).2 = some r →
        r = { x := min 10 40, y := min 10 40, width := |(40 : ℚ) - 10|,
              height := |(40 : ℚ) - 10|, personId := none, confidence := 1,
              isManual := true })
    ∧ (finishDrawingTag (runUpdates (startDrawingTag
        { currentPhoto := some "A", taggingMode := true, isDrawingTag := false,
          drawStartPos := none, originalStartPos := none, isDragging := false,
          currentFaceTags := [] } 10 10).1 [{ x := 40, y := 40 }])
          40 40 false).1
        = resetDraw (runUpdates (startDrawingTag
        { currentPhoto := some "A", taggingMode := true, isDrawingTag := false,
          drawStartPos := none, originalStartPos := none, isDragging := false,
          currentFaceTags := [] } 10 10).1 [{ x := 40, y := 40 }]) :=
  (C3_drag_gesture
    { currentPhoto := some "A", taggingMode := true, isDrawingTag := false,
      drawStartPos := none, originalStartPos := none, isDragging := false,
      currentFaceTags := [] } 10 10 [{ x := 40, y := 40 }] 40 40 rfl rfl).2
    ⟨{ x := 40, y := 40 }, by simp, by norm_num⟩

/-! ## Persistence lemmas -/

theorem stepCompleteCreate_fail (σ : SysState) (i : ℕ) :
    (stepCompleteCreate σ i false).viewer.currentFaceTags
      = σ.viewer.currentFaceTags := by
  unfold stepCompleteCreate
  cases h : σ.pendingCreates[i]? <;> simp [h]

theorem stepCompleteCreate_ok (σ : SysState) (i : ℕ) (pr : String × CreateReq)
    (h : σ.pendingCreates[i]? = some pr) :
    (stepCompleteCreate σ i true).viewer.currentFaceTags
      = σ.viewer.currentFaceTags ++ [savedTagOf σ.nextId pr.1 pr.2] := by
  unfold stepCompleteCreate
  simp [h]

theorem removeTag_fail (s : ViewerState) (tagId : ℕ) :
    removeTag s tagId false = s := by
  unfold removeTag
  cases h : s.currentFaceTags.find? (fun t => t.id == tagId) <;> simp [h]

theorem removeTag_ok (s : ViewerState) (tagId : ℕ) (t : FaceTag)
    (h : s.currentFaceTags.find? (fun t => t.id == tagId) = some t) :
    (removeTag s tagId true).currentFaceTags
      = s.currentFaceTags.filter (fun t => t.id != tagId) := by
  unfold removeTag
  simp [h]

theorem assignPersonToTag_fail (s : ViewerState) (tagId pid : ℕ)
    (nm : String) : assignPersonToTag s tagId pid nm false = s := by
  unfold assignPersonToTag
  cases h : s.currentFaceTags.find? (fun t => t.id == tagId) <;> simp [h]

theorem assignPersonToTag_ok (s : ViewerState) (tagId pid : ℕ) (nm : String)
    (t : FaceTag)
    (h : s.currentFaceTags.find? (fun t => t.id == tagId) = some t) :
    (assignPersonToTag s tagId pid nm true).currentFaceTags
      = s.currentFaceTags.map (fun t => if t.id == tagId then
          { t with personId := some pid, personName := nm } else t) := by
  unfold assignPersonToTag
  simp [h]

/-- C5: tag mutations are add-after-confirm and atomic under failure.
Committing a gesture never touches the working list itself; every create
request carries confidence 1 and `isManual`, with no identity; a failed
create leaves the list unchanged while a confirmed one appends exactly
the stored tag; `removeTag` and `assignPersonToTag` leave the state
unchanged on a failed remote call and apply exactly the local removal or
the personId/personName update on success. -/
theorem C5_persistence_atomicity :
    (∀ s : ViewerState, ∀ x y : ℚ, ∀ b : Bool,
        ((finishDrawingTag s x y b).1).currentFaceTags
          = s.currentFaceTags)
    ∧ (∀ s : ViewerState, ∀ x y : ℚ, ∀ b : Bool, ∀ r : CreateReq,
        (finishDrawingTag s x y b).2 = some r →
        r.confidence = 1 ∧ r.isManual = true ∧ r.personId = none)
    ∧ (∀ σ : SysState, ∀ i : ℕ,
        (stepCompleteCreate σ i false).viewer.currentFaceTags
          = σ.viewer.currentFaceTags)
    ∧ (∀ σ : SysState, ∀ i : ℕ, ∀ pr : String × CreateReq,
        σ.pendingCreates[i]? = some pr →
        (stepCompleteCreate σ i true).viewer.currentFaceTags
          = σ.viewer.currentFaceTags ++ [savedTagOf σ.nextId pr.1 pr.2])
    ∧ (∀ s : ViewerState, ∀ tagId : ℕ, removeTag s tagId false = s)
    ∧ (∀ s : ViewerState, ∀ tagId : ℕ, ∀ t : FaceTag,
        s.currentFaceTags.find? (fun t => t.id == tagId) = some t →
        (removeTag s tagId true).currentFaceTags
          = s.currentFaceTags.filter (fun t => t.id != tagId))
    ∧ (∀ s : ViewerState, ∀ tagId pid : ℕ, ∀ nm : String,
        assignPersonToTag s tagId pid nm false = s)
    ∧ (∀ s : ViewerState, ∀ tagId pid : ℕ, ∀ nm : String, ∀ t : FaceTag,
        s.currentFaceTags.find? (fun t => t.id == tagId) = some t →
        (assignPersonToTag s tagId pid nm true).currentFaceTags
          = s.currentFaceTags.map (fun t => if t.id == tagId then
              { t with personId := some pid, personName := nm } else t)) :=
  ⟨finishDrawingTag_tags, finishDrawingTag_req, stepCompleteCreate_fail,
    stepCompleteCreate_ok, removeTag_fail, removeTag_ok,
    assignPersonToTag_fail, assignPersonToTag_ok⟩

/-- Witness for C5: a one-element pending-create queue is applied on
success by appending exactly the stored tag. -/
theorem C5_witness :
    (stepCompleteCreate exC5State 0 true).viewer.currentFaceTags
      = exC5State.viewer.currentFaceTags
          ++ [savedTagOf exC5State.nextId "A" exReq] :=
  C5_persistence_atomicity.2.2.2.1 exC5State 0 ("A", exReq)
    (by simp [exC5State])

/-! ## Draw-invariant lemmas -/

theorem drawInv_set_tags (v : ViewerState) (l : List FaceTag) :
    drawInv { v with currentFaceTags := l } = drawInv v := rfl

theorem drawInv_loadReset (v : ViewerState) :
    drawInv (loadReset v) = true := rfl

theorem drawInv_save (v : ViewerState) :
    drawInv (saveFaceTags v) = true := rfl

theorem drawInv_resetDraw (v : ViewerState) :
    drawInv (resetDraw v) = true := rfl

theorem drawInv_toggle (v : ViewerState) (h : drawInv v = true) :
    drawInv (toggleTaggingMode v) = true := by
  rcases v with ⟨cp, tm, dt, dsp, osp, dr, tags⟩
  unfold toggleTaggingMode
  split_ifs with h1
  · rfl
  · cases dt
    · rfl
    · simp only at h1
      simp [drawInv, h1] at h

theorem drawInv_finish (v : ViewerState) (x y : ℚ) (b : Bool)
    (h : drawInv v = true) :
    drawInv (finishDrawingTag v x y b).1 = true := by
  rcases v with ⟨cp, tm, dt, dsp, osp, dr, tags⟩
  cases dt
  · exact h
  cases dsp
  · exact h
  cases osp
  · exact h
  simp only [finishDrawingTag]
  split_ifs <;> first | exact h | rfl

theorem drawInv_start (v : ViewerState) (x y : ℚ)
    (h : drawInv v = true) :
    drawInv (startDrawingTag v x y).1 = true := by
  rcases v with ⟨cp, tm, dt, dsp, osp, dr, tags⟩
  unfold startDrawingTag
  dsimp only
  split_ifs with h1 h2
  · exact drawInv_finish _ x y true h
  · simp [drawInv, h1]
  · exact h

theorem drawInv_update (v : ViewerState) (x y : ℚ)
    (h : drawInv v = true) :
    drawInv (updateDrawingTag v x y) = true := by
  rcases v with ⟨cp, tm, dt, dsp, osp, dr, tags⟩
  cases dt
  · exact h
  cases dsp with
  | none => exact h
  | some r0 =>
    cases osp with
    | none => exact h
    | some o =>
      simp only [updateDrawingTag]
      simp only [drawInv, Bool.not_true, Bool.false_or, Bool.and_eq_true,
        decide_eq_true_eq, Option.isSome_some] at h
      split_ifs <;>
        simp_all [drawInv, sub_nonneg, inf_le_sup]

theorem drawInv_remove (v : ViewerState) (tagId : ℕ) (ok : Bool)
    (h : drawInv v = true) :
    drawInv (removeTag v tagId ok) = true := by
  unfold removeTag
  cases hf : v.currentFaceTags.find? (fun t => t.id == tagId)
  · exact h
  · split_ifs
    · rw [drawInv_set_tags]
      exact h
    · exact h

theorem drawInv_assign (v : ViewerState) (tagId pid : ℕ) (nm : String)
    (ok : Bool) (h : drawInv v = true) :
    drawInv (assignPersonToTag v tagId pid nm ok) = true := by
  unfold assignPersonToTag
  cases hf : v.currentFaceTags.find? (fun t => t.id == tagId)
  · exact h
  · split_ifs
    · rw [drawInv_set_tags]
      exact h
    · exact h

theorem enqueueCreate_viewer (σ : SysState)
    (vr : ViewerState × Option CreateReq) :
    (enqueueCreate σ vr).viewer = vr.1 := by
  rcases vr with ⟨v, req⟩
  unfold enqueueCreate
  cases req <;> cases σ.viewer.currentPhoto <;> rfl

/-- C10: the draw-session invariant — an active draw session implies
tagging mode, a present anchor and a present preview rectangle with
nonnegative width and height — is preserved by every operation of the
viewer, including navigation, mode toggling, gesture events, persistence
completions, saving, tag removal and identity assignment. -/
theorem C10_draw_invariant (σ : SysState) (e : Event)
    (h : drawInv σ.viewer = true) :
    drawInv (step σ e).viewer = true := by
  cases e with
  | navigate p =>
    cases p with
    | none =>
      show drawInv { loadReset _ with currentFaceTags := [] } = true
      rw [drawInv_set_tags]
      exact drawInv_loadReset _
    | some name => exact drawInv_loadReset _
  | toggleTagging => exact drawInv_toggle _ h
  | save => exact drawInv_save _
  | start x y =>
    show drawInv (enqueueCreate σ (startDrawingTag σ.viewer x y)).viewer = true
    rw [enqueueCreate_viewer]
    exact drawInv_start _ x y h
  | update x y => exact drawInv_update _ x y h
  | finishUp x y =>
    show drawInv
      (enqueueCreate σ (finishDrawingTag σ.viewer x y false)).viewer = true
    rw [enqueueCreate_viewer]
    exact drawInv_finish _ x y false h
  | completeCreate i ok =>
    show drawInv (stepCompleteCreate σ i ok).viewer = true
    unfold stepCompleteCreate
    cases hp : σ.pendingCreates[i]? with
    | none => exact h
    | some pr =>
      split_ifs
      · rw [drawInv_set_tags]
        exact h
      · exact h
  | completeLoad i ok =>
    show drawInv (stepCompleteLoad σ i ok).viewer = true
    unfold stepCompleteLoad
    cases hp : σ.pendingLoads[i]? with
    | none => exact h
    | some p =>
      rw [drawInv_set_tags]
      exact h
  | remove tagId ok => exact drawInv_remove _ tagId ok h
  | assign tagId pid nm ok => exact drawInv_assign _ tagId pid nm ok h

/-- Witness for C10: the invariant holds of the initial viewer and is
preserved across a concrete first event. -/
theorem C10_witness :
    drawInv (step initSys Event.toggleTagging).viewer = true :=
  C10_draw_invariant initSys Event.toggleTagging rfl

/-! ## Cross-photo leakage -/

theorem toggleTaggingMode_tags (s : ViewerState) :
    (toggleTaggingMode s).currentFaceTags = s.currentFaceTags := by
  unfold toggleTaggingMode
  split_ifs <;> rfl

theorem toggleTaggingMode_photo (s : ViewerState) :
    (toggleTaggingMode s).currentPhoto = s.currentPhoto := by
  unfold toggleTaggingMode
  split_ifs <;> rfl

theorem saveFaceTags_tags (s : ViewerState) :
    (saveFaceTags s).currentFaceTags = s.currentFaceTags := rfl

theorem saveFaceTags_photo (s : ViewerState) :
    (saveFaceTags s).currentPhoto = s.currentPhoto := rfl

theorem removeTag_photo (s : ViewerState) (tagId : ℕ) (ok : Bool) :
    (removeTag s tagId ok).currentPhoto = s.currentPhoto := by
  unfold removeTag
  cases s.currentFaceTags.find? (fun t => t.id == tagId) <;>
    split_ifs <;> rfl

theorem removeTag_mem {s : ViewerState} {tagId : ℕ} {ok : Bool}
    {t : FaceTag} (h : t ∈ (removeTag s tagId ok).currentFaceTags) :
    t ∈ s.currentFaceTags := by
  unfold removeTag at h
  cases hf : s.currentFaceTags.find? (fun t => t.id == tagId) <;>
    rw [hf] at h
  · exact h
  · split_ifs at h
    · exact List.mem_of_mem_filter h
    · exact h

theorem assignPersonToTag_photo (s : ViewerState) (tagId pid : ℕ)
    (nm : String) (ok : Bool) :
    (assignPersonToTag s tagId pid nm ok).currentPhoto = s.currentPhoto := by
  unfold assignPersonToTag
  cases s.currentFaceTags.find? (fun t => t.id == tagId) <;>
    split_ifs <;> rfl

theorem assignPersonToTag_mem {s : ViewerState} {tagId pid : ℕ}
    {nm : String} {ok : Bool} {t : FaceTag}
    (h : t ∈ (assignPersonToTag s tagId pid nm ok).currentFaceTags) :
    ∃ t0 ∈ s.currentFaceTags, t.photo = t0.photo := by
  unfold assignPersonToTag at h
  cases hf : s.currentFaceTags.find? (fun t => t.id == tagId) <;>
    rw [hf] at h
  · exact ⟨t, h, rfl⟩
  · split_ifs at h
    · obtain ⟨t0, ht0, rfl⟩ := List.mem_map.mp h
      refine ⟨t0, ht0, ?_⟩
      split_ifs <;> rfl
    · exact ⟨t, h, rfl⟩

theorem enqueueCreate_pendingLoads (σ : SysState)
    (vr : ViewerState × Option CreateReq) :
    (enqueueCreate σ vr).pendingLoads = σ.pendingLoads := by
  rcases vr with ⟨v, req⟩
  unfold enqueueCreate
  cases req <;> cases σ.viewer.currentPhoto <;> rfl

theorem step_tagsMatch (σ : SysState) (e : Event) (h : TagsMatchPhoto σ)
    (ht : timely σ e = true) : TagsMatchPhoto (step σ e) := by
  cases e with
  | navigate p =>
    cases p with
    | none =>
      intro _ t htm
      exact absurd htm (by simp [step, stepNavigate])
    | some name =>
      intro hpl
      exact absurd hpl (by simp [step, stepNavigate])
  | toggleTagging =>
    intro hpl t htm
    simp only [step] at hpl htm ⊢
    rw [toggleTaggingMode_photo]
    exact h hpl t (by rwa [toggleTaggingMode_tags] at htm)
  | save =>
    intro hpl t htm
    exact h hpl t htm
  | start x y =>
    intro hpl t htm
    simp only [step] at hpl htm ⊢
    rw [enqueueCreate_pendingLoads] at hpl
    rw [enqueueCreate_viewer] at htm
    rw [enqueueCreate_viewer, startDrawingTag_photo]
    exact h hpl t (by rwa [startDrawingTag_tags] at htm)
  | update x y =>
    intro hpl t htm
    simp only [step] at hpl htm ⊢
    rw [updateDrawingTag_photo]
    exact h hpl t (by rwa [updateDrawingTag_tags] at htm)
  | finishUp x y =>
    intro hpl t htm
    simp only [step] at hpl htm ⊢
    rw [enqueueCreate_pendingLoads] at hpl
    rw [enqueueCreate_viewer] at htm
    rw [enqueueCreate_viewer, finishDrawingTag_photo]
    exact h hpl t (by rwa [finishDrawingTag_tags] at htm)
  | completeCreate i ok =>
    show TagsMatchPhoto (stepCompleteCreate σ i ok)
    simp only [timely] at ht
    unfold stepCompleteCreate
    cases hp : σ.pendingCreates[i]? with
    | none => exact h
    | some pr =>
      have hph : some pr.1 = σ.viewer.currentPhoto := by
        rw [hp] at ht
        dsimp only at ht
        exact eq_of_beq ht
      split_ifs with hok
      · intro hpl t htm
        simp only at hpl htm ⊢
        rcases List.mem_append.mp htm with hold | hnew
        · exact h hpl t hold
        · rw [List.mem_singleton.mp hnew]
          exact hph
      · intro hpl t htm
        exact h hpl t htm
  | completeLoad i ok =>
    show TagsMatchPhoto (stepCompleteLoad σ i ok)
    simp only [timely] at ht
    unfold stepCompleteLoad
    cases hp : σ.pendingLoads[i]? with
    | none => exact h
    | some p =>
      have hph : some p = σ.viewer.currentPhoto := by
        rw [hp] at ht
        dsimp only at ht
        exact eq_of_beq ht
      intro hpl t htm
      simp only at htm ⊢
      split_ifs at htm with hok
      · obtain ⟨hmem, hbeq⟩ := List.mem_filter.mp htm
        rw [eq_of_beq hbeq]
        exact hph
      · exact absurd htm (by simp)
  | remove tagId ok =>
    intro hpl t htm
    show some t.photo = (removeTag σ.viewer tagId ok).currentPhoto
    rw [removeTag_photo]
    exact h hpl t (removeTag_mem htm)
  | assign tagId pid nm ok =>
    intro hpl t htm
    show some t.photo = (assignPersonToTag σ.viewer tagId pid nm ok).currentPhoto
    rw [assignPersonToTag_photo]
    obtain ⟨t0, ht0, heq⟩ := assignPersonToTag_mem htm
    rw [heq]
    exact h hpl t0 ht0

/-- C4 counterexample: running the interleaving `exTrace` — the create
for photo `A` completes after navigation to photo `B` and after `B`'s
load — leaves photo `B` displayed with no load in flight while the
working list contains the photo-`A` tag: the late result is applied, not
discarded. -/
theorem C4_counterexample :
    (run initSys exTrace).pendingLoads = []
    ∧ (run initSys exTrace).viewer.currentPhoto = some "B"
    ∧ exLeakTag ∈ (run initSys exTrace).viewer.currentFaceTags
    ∧ some exLeakTag.photo ≠ (run initSys exTrace).viewer.currentPhoto
    ∧ ¬ TagsMatchPhoto (run initSys exTrace) := by
  have h1 : (run initSys exTrace).pendingLoads = [] := by
    norm_num [run, step, exTrace, stepNavigate, stepCompleteLoad,
      stepCompleteCreate, enqueueCreate, loadReset, toggleTaggingMode,
      startDrawingTag, updateDrawingTag, finishDrawingTag, initSys,
      initViewer, savedTagOf]
  have h2 : (run initSys exTrace).viewer.currentPhoto = some "B" := by
    norm_num [run, step, exTrace, stepNavigate, stepCompleteLoad,
      stepCompleteCreate, enqueueCreate, loadReset, toggleTaggingMode,
      startDrawingTag, updateDrawingTag, finishDrawingTag, initSys,
      initViewer, savedTagOf]
  have h3 : exLeakTag ∈ (run initSys exTrace).viewer.currentFaceTags := by
    norm_num [run, step, exTrace, stepNavigate, stepCompleteLoad,
      stepCompleteCreate, enqueueCreate, loadReset, toggleTaggingMode,
      startDrawingTag, updateDrawingTag, finishDrawingTag, initSys,
      initViewer, savedTagOf, exLeakTag]
  have h4 : some exLeakTag.photo ≠ (run initSys exTrace).viewer.currentPhoto := by
    rw [h2]
    simp [exLeakTag, savedTagOf]
  exact ⟨h1, h2, h3, h4, fun hT => h4 (hT h1 exLeakTag h3)⟩

/-- C4 (amended): the viewer applies late create and load completions
without checking that their photo is still displayed, so the
no-cross-photo-leakage property holds only for timely interleavings:
starting from a state whose working list matches its photo, any event
sequence in which every completion lands while its photo is still the
displayed one leaves a state in which, whenever no load is in flight,
every tag of the working list belongs to the displayed photo.  (The
original unconditional claim is refuted by `exTrace`.) -/
theorem C4_stale_results (σ : SysState) (evs : List Event)
    (h : TagsMatchPhoto σ) (ht : timelyTrace σ evs = true) :
    TagsMatchPhoto (run σ evs) := by
  induction evs generalizing σ with
  | nil => exact h
  | cons e r ih =>
    rw [timelyTrace, Bool.and_eq_true] at ht
    exact ih (step σ e) (step_tagsMatch σ e h ht.1) ht.2

/-- Witness for C4: a timely interleaving — open photo `A`, let its load
land while `A` is still displayed — keeps the working list consistent. -/
theorem C4_witness :
    TagsMatchPhoto (run initSys
      [Event.navigate (some "A"), Event.completeLoad 0 true]) :=
  C4_stale_results initSys
    [Event.navigate (some "A"), Event.completeLoad 0 true]
    (fun _ t htm => absurd htm (by simp [initSys, initViewer]))
    (by norm_num [timelyTrace, timely, step, stepNavigate, stepCompleteLoad,
      initSys, initViewer, loadReset])

/-! ## Descriptor store: digit lemmas -/

theorem digitVal_digitChar {d : ℕ} (h : d < 10) :
    digitVal (digitChar d) = d := by
  interval_cases d <;> rfl

theorem isDigit_digitChar {d : ℕ} (h : d < 10) :
    isDigit (digitChar d) = true := by
  interval_cases d <;> decide

theorem digitChar_ne_rbrack {d : ℕ} (h : d < 10) : digitChar d ≠ ']' := by
  interval_cases d <;> decide

theorem digitChar_ne_dash {d : ℕ} (h : d < 10) : digitChar d ≠ '-' := by
  interval_cases d <;> decide

theorem isWsChar_digitChar {d : ℕ} (h : d < 10) :
    isWsChar (digitChar d) = false := by
  interval_cases d <;> decide

theorem natDigitsLE_lt10 : ∀ (fuel n : ℕ), ∀ d ∈ natDigitsLE fuel n, d < 10 := by
  intro fuel
  induction fuel with
  | zero => intro n d hd; cases hd
  | succ fuel ih =>
    intro n d hd
    rw [natDigitsLE] at hd
    split_ifs at hd with h
    · cases hd
    · rcases List.mem_cons.mp hd with rfl | hd
      · omega
      · exact ih _ d hd

theorem natDigits_lt10 {n : ℕ} : ∀ d ∈ natDigits n, d < 10 := by
  intro d hd
  rw [natDigits, List.mem_reverse] at hd
  exact natDigitsLE_lt10 _ _ d hd

theorem digitsVal_append (ds : List ℕ) (d : ℕ) :
    digitsVal (ds ++ [d]) = 10 * digitsVal ds + d := by
  rw [digitsVal, digitsVal, List.foldl_append]
  rfl

theorem natDigitsLE_val : ∀ (fuel n : ℕ), n ≤ fuel →
    digitsVal (natDigitsLE fuel n).reverse = n := by
  intro fuel
  induction fuel with
  | zero =>
    intro n hn
    interval_cases n
    rfl
  | succ fuel ih =>
    intro n hn
    rw [natDigitsLE]
    split_ifs with h
    · rw [h]
      rfl
    · rw [List.reverse_cons, digitsVal_append,
        ih (n / 10) (by omega)]
      omega

theorem digitsVal_natDigits (n : ℕ) : digitsVal (natDigits n) = n :=
  natDigitsLE_val (n + 1) n (by omega)

theorem natDigitsLE_length : ∀ (fuel n e : ℕ), n < 10 ^ e →
    (natDigitsLE fuel n).length ≤ e := by
  intro fuel
  induction fuel with
  | zero => intro n e _; simp [natDigitsLE]
  | succ fuel ih =>
    intro n e hn
    rw [natDigitsLE]
    split_ifs with h
    · simp
    · cases e with
      | zero =>
        rw [pow_zero] at hn
        omega
      | succ e =>
        have hdiv : n / 10 < 10 ^ e := by
          rw [Nat.div_lt_iff_lt_mul (by omega)]
          calc n < 10 ^ (e + 1) := hn
          _ = 10 ^ e * 10 := by ring
        simpa using Nat.succ_le_succ (ih (n / 10) e hdiv)

theorem natDigits_length {n e : ℕ} (h : n < 10 ^ e) :
    (natDigits n).length ≤ e := by
  rw [natDigits, List.length_reverse]
  exact natDigitsLE_length _ n e h

theorem natDigits_ne_nil {n : ℕ} (h : n ≠ 0) : natDigits n ≠ [] := by
  rw [natDigits]
  intro hcontra
  rw [List.reverse_eq_nil_iff, natDigitsLE] at hcontra
  split_ifs at hcontra with h0
  exact h h0

theorem padDigits_length {e f : ℕ} (h : f < 10 ^ e) :
    (padDigits e f).length = e := by
  have := natDigits_length h
  rw [padDigits, List.length_append, List.length_replicate]
  omega

theorem padDigits_lt10 {e f : ℕ} : ∀ d ∈ padDigits e f, d < 10 := by
  intro d hd
  rw [padDigits] at hd
  rcases List.mem_append.mp hd with hd | hd
  · rw [List.eq_of_mem_replicate hd]
    omega
  · exact natDigits_lt10 d hd

theorem digitsVal_replicate_append (k : ℕ) (l : List ℕ) :
    digitsVal (List.replicate k 0 ++ l) = digitsVal l := by
  rw [digitsVal, List.foldl_append]
  congr 1
  induction k with
  | zero => rfl
  | succ k ih => simpa using ih

theorem digitsVal_padDigits {e f : ℕ} :
    digitsVal (padDigits e f) = f := by
  rw [padDigits, digitsVal_replicate_append, digitsVal_natDigits]

/-! ## Descriptor store: span and number parsing lemmas -/

theorem takeWhile_digits (l rest : List Char)
    (hl : ∀ c ∈ l, isDigit c = true)
    (hr : ∀ c ∈ rest.head?, isDigit c = false) :
    (l ++ rest).takeWhile isDigit = l
      ∧ (l ++ rest).dropWhile isDigit = rest := by
  induction l with
  | nil =>
    cases rest with
    | nil => exact ⟨rfl, rfl⟩
    | cons c t =>
      have hc : isDigit c = false := hr c (by simp)
      constructor
      · simp [List.takeWhile_cons, hc]
      · simp [List.dropWhile_cons, hc]
  | cons c l ih =>
    have hc : isDigit c = true := hl c (List.mem_cons_self _ _)
    obtain ⟨h1, h2⟩ := ih (fun x hx => hl x (List.mem_cons_of_mem _ hx))
    constructor
    · simp [List.takeWhile_cons, hc, h1]
    · simp [List.dropWhile_cons, hc, h2]

theorem parseDigits_printed (ds : List ℕ) (rest : List Char)
    (h10 : ∀ d ∈ ds, d < 10) (hne : ds ≠ [])
    (hr : ∀ c ∈ rest.head?, isDigit c = false) :
    parseDigits (ds.map digitChar ++ rest) = some (ds, rest) := by
  obtain ⟨h1, h2⟩ := takeWhile_digits (ds.map digitChar) rest
    (by
      intro c hc
      obtain ⟨d, hd, rfl⟩ := List.mem_map.mp hc
      exact isDigit_digitChar (h10 d hd)) hr
  obtain ⟨d0, ds', rfl⟩ := List.exists_cons_of_ne_nil hne
  rw [parseDigits]
  have h1' : List.takeWhile isDigit
      (digitChar d0 :: (List.map digitChar ds' ++ rest))
      = digitChar d0 :: List.map digitChar ds' := by simpa using h1
  have h2' : List.dropWhile isDigit
      (digitChar d0 :: (List.map digitChar ds' ++ rest)) = rest := by
    simpa using h2
  simp only [List.map_cons, List.cons_append, h1', h2']
  congr 1
  rw [Prod.mk.injEq]
  refine ⟨?_, rfl⟩
  simp only [List.map_cons, List.map_map]
  rw [digitVal_digitChar (h10 d0 (List.mem_cons_self _ _))]
  congr 1
  have hmap : List.map (digitVal ∘ digitChar) ds' = List.map id ds' :=
    List.map_congr_left
      (fun d hd => digitVal_digitChar (h10 d (List.mem_cons_of_mem _ hd)))
  rw [hmap, List.map_id]

theorem skipWs_not_ws {c : Char} (cs : List Char)
    (h : isWsChar c = false) : skipWs (c :: cs) = c :: cs := by
  rw [skipWs, List.dropWhile_cons, h]
  rfl

theorem normNum_eq_self {n : ℕ} (h : ¬ 10 ∣ n) :
    ∀ e, normNum n e = (n, e) := by
  intro e
  cases e with
  | zero => rfl
  | succ e =>
    rw [normNum]
    split_ifs with h0
    · exact absurd (by omega : 10 ∣ n) h
    · rfl

theorem mkDecNum_canonical (neg : Bool) (n e : ℕ)
    (hok : e = 0 ∨ ¬ 10 ∣ n) :
    (mkDecNum neg n e).val
      = ((if neg then -(n : ℤ) else (n : ℤ)), e) := by
  rcases hok with h | h
  · subst h
    rfl
  · rw [mkDecNum]
    simp only [normNum_eq_self h]

theorem natChars_spec (n : ℕ) : ∃ ids : List ℕ,
    natChars n = ids.map digitChar ∧ digitsVal ids = n
      ∧ (∀ d ∈ ids, d < 10) ∧ ids ≠ [] := by
  by_cases hn : n = 0
  · subst hn
    exact ⟨[0], rfl, rfl, by norm_num, by simp⟩
  · refine ⟨natDigits n, ?_, digitsVal_natDigits n, natDigits_lt10,
      natDigits_ne_nil hn⟩
    rw [natChars, if_neg hn]

theorem parseNumAux_printed (neg : Bool) (n e : ℕ) (hok : e = 0 ∨ ¬ 10 ∣ n)
    (rest : List Char) (hr : NumRestOk rest) :
    parseNumAux neg
      ((if e = 0 then natChars n
        else natChars (n / 10 ^ e) ++
          '.' :: (padDigits e (n % 10 ^ e)).map digitChar) ++ rest)
      = some (mkDecNum neg n e, rest) := by
  have hrd : ∀ c ∈ rest.head?, isDigit c = false :=
    fun c hc => (hr c hc).1
  by_cases he : e = 0
  · subst he
    rw [if_pos rfl]
    obtain ⟨ids, hmap, hval, h10, hne⟩ := natChars_spec n
    cases rest with
    | nil =>
      rw [hmap, parseNumAux, parseDigits_printed ids [] h10 hne hrd]
      dsimp only
      rw [hval]
    | cons c t =>
      have hc := hr c (by simp)
      rw [hmap, parseNumAux, parseDigits_printed _ _ h10 hne hrd]
      dsimp only
      rw [if_neg hc.2, hval]
  · rw [if_neg he]
    obtain ⟨ids, hmap, hval, h10, hne⟩ := natChars_spec (n / 10 ^ e)
    have hf : n % 10 ^ e < 10 ^ e := Nat.mod_lt _ (by positivity)
    have hplen : (padDigits e (n % 10 ^ e)).length = e := padDigits_length hf
    have hpne : padDigits e (n % 10 ^ e) ≠ [] := by
      intro hcontra
      rw [hcontra] at hplen
      exact he hplen.symm
    rw [hmap, List.append_assoc, List.cons_append, parseNumAux,
      parseDigits_printed ids _ h10 hne
        (fun c hc => by simp at hc; subst hc; decide)]
    dsimp only
    rw [if_pos rfl, parseDigits_printed _ rest padDigits_lt10 hpne hrd]
    dsimp only
    rw [hval, digitsVal_padDigits, hplen]
    rw [show n / 10 ^ e * 10 ^ e + n % 10 ^ e = n from by
      rw [mul_comm]
      exact Nat.div_add_mod n (10 ^ e)]

theorem printNum_parse (d : DecNum) (rest : List Char) (hr : NumRestOk rest) :
    parseNum (printNum d ++ rest) = some (d, rest) := by
  have hok : d.val.2 = 0 ∨ ¬ 10 ∣ d.val.1.natAbs := by
    rcases d.property with h | h
    · exact Or.inl h
    · refine Or.inr (fun hd => h ?_)
      have : (10 : ℤ).natAbs ∣ d.val.1.natAbs := by simpa using hd
      exact Int.natAbs_dvd_natAbs.mp this
  by_cases hm : d.val.1 < 0
  · have hprint : printNum d ++ rest
        = '-' :: ((if d.val.2 = 0 then natChars d.val.1.natAbs
            else natChars (d.val.1.natAbs / 10 ^ d.val.2) ++
              '.' :: (padDigits d.val.2
                (d.val.1.natAbs % 10 ^ d.val.2)).map digitChar) ++ rest) := by
      rw [printNum, if_pos hm]
      rfl
    rw [hprint, parseNum, if_pos rfl,
      parseNumAux_printed true d.val.1.natAbs d.val.2 hok rest hr]
    congr 1
    rw [Prod.mk.injEq]
    refine ⟨Subtype.ext ?_, rfl⟩
    rw [mkDecNum_canonical true _ _ hok, if_pos rfl]
    have : -((d.val.1.natAbs : ℤ)) = d.val.1 := by omega
    rw [this]
  · have hbody : ∃ c0 t0, (if d.val.2 = 0 then natChars d.val.1.natAbs
        else natChars (d.val.1.natAbs / 10 ^ d.val.2) ++
          '.' :: (padDigits d.val.2
            (d.val.1.natAbs % 10 ^ d.val.2)).map digitChar)
        = digitChar c0 :: t0 ∧ c0 < 10 := by
      split_ifs with he
      · obtain ⟨ids, hmap, _, h10, hne⟩ := natChars_spec d.val.1.natAbs
        obtain ⟨d0, ds', rfl⟩ := List.exists_cons_of_ne_nil hne
        exact ⟨d0, _, by rw [hmap, List.map_cons],
          h10 d0 (List.mem_cons_self _ _)⟩
      · obtain ⟨ids, hmap, _, h10, hne⟩ :=
          natChars_spec (d.val.1.natAbs / 10 ^ d.val.2)
        obtain ⟨d0, ds', rfl⟩ := List.exists_cons_of_ne_nil hne
        exact ⟨d0, _, by rw [hmap, List.map_cons, List.cons_append],
          h10 d0 (List.mem_cons_self _ _)⟩
    obtain ⟨c0, t0, hbody, hc0⟩ := hbody
    have hprint : printNum d ++ rest
        = digitChar c0 :: (t0 ++ rest) := by
      rw [printNum, if_neg hm, hbody]
      rfl
    rw [hprint, parseNum, if_neg (digitChar_ne_dash hc0)]
    have hre : digitChar c0 :: (t0 ++ rest)
        = (if d.val.2 = 0 then natChars d.val.1.natAbs
            else natChars (d.val.1.natAbs / 10 ^ d.val.2) ++
              '.' :: (padDigits d.val.2
                (d.val.1.natAbs % 10 ^ d.val.2)).map digitChar) ++ rest := by
      rw [hbody]
      rfl
    rw [hre, parseNumAux_printed false d.val.1.natAbs d.val.2 hok rest hr]
    congr 1
    rw [Prod.mk.injEq]
    refine ⟨Subtype.ext ?_, rfl⟩
    rw [mkDecNum_canonical false _ _ hok, if_neg (by simp)]
    have : ((d.val.1.natAbs : ℤ)) = d.val.1 := by omega
    rw [this]

theorem printNum_head (d : DecNum) :
    ∃ c t, printNum d = c :: t ∧ isWsChar c = false ∧ c ≠ ']' := by
  by_cases hm : d.val.1 < 0
  · refine ⟨'-', (if d.val.2 = 0 then natChars d.val.1.natAbs
        else natChars (d.val.1.natAbs / 10 ^ d.val.2) ++
          '.' :: (padDigits d.val.2
            (d.val.1.natAbs % 10 ^ d.val.2)).map digitChar),
      ?_, by decide, by decide⟩
    rw [printNum, if_pos hm]
    rfl
  · rw [printNum, if_neg hm]
    split_ifs with he
    · obtain ⟨ids, hmap, _, h10, hne⟩ := natChars_spec d.val.1.natAbs
      obtain ⟨d0, ds', rfl⟩ := List.exists_cons_of_ne_nil hne
      refine ⟨digitChar d0, List.map digitChar ds', ?_,
        isWsChar_digitChar (h10 d0 (List.mem_cons_self _ _)),
        digitChar_ne_rbrack (h10 d0 (List.mem_cons_self _ _))⟩
      rw [hmap, List.map_cons]
      rfl
    · obtain ⟨ids, hmap, _, h10, hne⟩ :=
        natChars_spec (d.val.1.natAbs / 10 ^ d.val.2)
      obtain ⟨d0, ds', rfl⟩ := List.exists_cons_of_ne_nil hne
      refine ⟨digitChar d0, List.map digitChar ds' ++
          '.' :: (padDigits d.val.2
            (d.val.1.natAbs % 10 ^ d.val.2)).map digitChar, ?_,
        isWsChar_digitChar (h10 d0 (List.mem_cons_self _ _)),
        digitChar_ne_rbrack (h10 d0 (List.mem_cons_self _ _))⟩
      rw [hmap, List.map_cons]
      rfl

/-! ## Descriptor store: array lemmas -/

theorem arrTail_parse {α : Type}
    (pe : List Char → Option (α × List Char)) (pr : α → List Char)
    (R : List Char → Prop)
    (hpe : ∀ a rest, R rest → pe (pr a ++ rest) = some (a, rest))
    (hhead : ∀ a, ∃ c t, pr a = c :: t ∧ isWsChar c = false ∧ c ≠ ']')
    (Rcomma : ∀ cs, R (',' :: cs)) (Rrbrack : ∀ cs, R (']' :: cs)) :
    ∀ (xs : List α) (rest : List Char) (fuel : ℕ), xs.length < fuel →
      parseTail pe fuel (arrTail pr xs ++ rest) = some (xs, rest) := by
  intro xs
  induction xs with
  | nil =>
    intro rest fuel hfuel
    cases fuel with
    | zero => omega
    | succ fuel =>
      rw [arrTail, parseTail, List.cons_append, List.nil_append,
        skipWs_not_ws _ (by decide)]
      dsimp only
      rw [if_neg (by decide), if_pos rfl]
  | cons x t ih =>
    intro rest fuel hfuel
    cases fuel with
    | zero => simp at hfuel
    | succ fuel =>
      rw [arrTail, parseTail, List.cons_append,
        skipWs_not_ws _ (by decide)]
      dsimp only
      rw [if_pos rfl]
      obtain ⟨c0, t0, hpr, hws, _⟩ := hhead x
      have hshape : pr x ++ (arrTail pr t ++ rest)
          = c0 :: (t0 ++ (arrTail pr t ++ rest)) := by
        rw [hpr]
        rfl
      rw [List.append_assoc, hshape, skipWs_not_ws _ hws, ← hshape]
      have hR : R (arrTail pr t ++ rest) := by
        cases t with
        | nil => exact Rrbrack rest
        | cons y ys => exact Rcomma _
      rw [hpe x _ hR]
      dsimp only
      rw [ih rest fuel (by simpa using hfuel)]

theorem parseArr_printed {α : Type}
    (pe : List Char → Option (α × List Char)) (pr : α → List Char)
    (R : List Char → Prop)
    (hpe : ∀ a rest, R rest → pe (pr a ++ rest) = some (a, rest))
    (hhead : ∀ a, ∃ c t, pr a = c :: t ∧ isWsChar c = false ∧ c ≠ ']')
    (Rcomma : ∀ cs, R (',' :: cs)) (Rrbrack : ∀ cs, R (']' :: cs)) :
    ∀ (xs : List α) (rest : List Char) (fuel : ℕ), xs.length < fuel →
      parseArr pe fuel (arrChars pr xs ++ rest) = some (xs, rest) := by
  intro xs rest fuel hfuel
  cases xs with
  | nil =>
    rw [arrChars, parseArr.eq_def, List.cons_append, List.cons_append,
      List.nil_append]
    dsimp only
    rw [if_pos rfl, skipWs_not_ws _ (by decide)]
    dsimp only
    rw [if_pos rfl]
  | cons x t =>
    rw [arrChars, parseArr.eq_def, List.cons_append]
    dsimp only
    rw [if_pos rfl]
    obtain ⟨c0, t0, hpr, hws, hrb⟩ := hhead x
    have hshape : pr x ++ (arrTail pr t ++ rest)
        = c0 :: (t0 ++ (arrTail pr t ++ rest)) := by
      rw [hpr]
      rfl
    rw [List.append_assoc, hshape, skipWs_not_ws _ hws]
    dsimp only
    rw [if_neg hrb, ← hshape]
    have hR : R (arrTail pr t ++ rest) := by
      cases t with
      | nil => exact Rrbrack rest
      | cons y ys => exact Rcomma _
    rw [hpe x _ hR]
    dsimp only
    rw [arrTail_parse pe pr R hpe hhead Rcomma Rrbrack t rest fuel
      (by simp only [List.length_cons] at hfuel; omega)]

theorem arrTail_length {α : Type} (pr : α → List Char)
    (hne : ∀ a, pr a ≠ []) :
    ∀ xs : List α, xs.length < (arrTail pr xs).length := by
  intro xs
  induction xs with
  | nil => simp [arrTail]
  | cons x t ih =>
    rw [arrTail]
    have : 1 ≤ (pr x).length := by
      cases hp : pr x with
      | nil => exact absurd hp (hne x)
      | cons c cs => simp
    simp only [List.length_cons, List.length_append]
    omega

theorem arrChars_length {α : Type} (pr : α → List Char)
    (hne : ∀ a, pr a ≠ []) :
    ∀ xs : List α, xs.length < (arrChars pr xs).length := by
  intro xs
  cases xs with
  | nil => simp [arrChars]
  | cons x t =>
    rw [arrChars]
    have h1 := arrTail_length pr hne t
    simp only [List.length_cons, List.length_append]
    omega

theorem printNum_ne_nil (d : DecNum) : printNum d ≠ [] := by
  obtain ⟨c, t, hct, _, _⟩ := printNum_head d
  rw [hct]
  exact List.cons_ne_nil _ _

theorem parseInnerArr_printed (a : List DecNum) (rest : List Char) :
    parseInnerArr (arrChars printNum a ++ rest) = some (a, rest) := by
  rw [parseInnerArr]
  refine parseArr_printed parseNum printNum NumRestOk printNum_parse
    printNum_head
    (fun cs => by intro c hc; simp at hc; subst hc; exact ⟨by decide, by decide⟩)
    (fun cs => by intro c hc; simp at hc; subst hc; exact ⟨by decide, by decide⟩)
    a rest _ ?_
  calc a.length < (arrChars printNum a).length :=
    arrChars_length printNum printNum_ne_nil a
  _ ≤ (arrChars printNum a ++ rest).length := by simp
  _ < (arrChars printNum a ++ rest).length + 1 := by omega

theorem innerChars_head (a : List DecNum) :
    ∃ c t, arrChars printNum a = c :: t ∧ isWsChar c = false ∧ c ≠ ']' := by
  cases a with
  | nil => exact ⟨'[', [']'], rfl, by decide, by decide⟩
  | cons x t =>
    exact ⟨'[', printNum x ++ arrTail printNum t, rfl, by decide, by decide⟩

theorem innerChars_ne_nil (a : List DecNum) : arrChars printNum a ≠ [] := by
  obtain ⟨c, t, hct, _, _⟩ := innerChars_head a
  rw [hct]
  exact List.cons_ne_nil _ _

theorem parse_serialize (l : List (List DecNum)) :
    parseFaceEncodings (serializeFaceEncodings l) = l := by
  have hdata : (serializeFaceEncodings l).data
      = arrChars (arrChars printNum) l := rfl
  have hhd := innerChars_head
  have houter : ∀ rest,
      parseArr parseInnerArr ((skipWs (serializeFaceEncodings l).data).length + 1)
        (arrChars (arrChars printNum) l ++ rest)
      = some (l, rest) := by
    intro rest
    refine parseArr_printed parseInnerArr (arrChars printNum)
      (fun _ => True) (fun a r _ => parseInnerArr_printed a r)
      innerChars_head (fun _ => trivial) (fun _ => trivial) l rest _ ?_
    have hskip : skipWs (serializeFaceEncodings l).data
        = arrChars (arrChars printNum) l := by
      rw [hdata]
      obtain ⟨c, t, hct, hws, _⟩ :=
        (show ∃ c t, arrChars (arrChars printNum) l = c :: t
            ∧ isWsChar c = false ∧ c ≠ ']' from by
          cases l with
          | nil => exact ⟨'[', [']'], rfl, by decide, by decide⟩
          | cons x t => exact ⟨'[', _, rfl, by decide, by decide⟩)
      rw [hct, skipWs_not_ws _ hws]
    rw [hskip]
    calc l.length < (arrChars (arrChars printNum) l).length :=
      arrChars_length _ innerChars_ne_nil l
    _ < (arrChars (arrChars printNum) l).length + 1 := by omega
  have hskip : skipWs (serializeFaceEncodings l).data
      = arrChars (arrChars printNum) l := by
    rw [hdata]
    obtain ⟨c, t, hct, hws, _⟩ :=
      (show ∃ c t, arrChars (arrChars printNum) l = c :: t
          ∧ isWsChar c = false ∧ c ≠ ']' from by
        cases l with
        | nil => exact ⟨'[', [']'], rfl, by decide, by decide⟩
        | cons x t => exact ⟨'[', _, rfl, by decide, by decide⟩)
    rw [hct, skipWs_not_ws _ hws]
  rw [parseFaceEncodings, hskip]
  have := houter []
  rw [List.append_nil] at this
  rw [hskip] at this
  rw [this]
  rfl

theorem addFaceEncoding_parse (t : Option String) (d : List DecNum) :
    parseFaceEncodings (addFaceEncoding t d)
      = sliceLast10 (parsedOf t ++ [d]) := by
  cases t with
  | none => exact parse_serialize _
  | some s => exact parse_serialize _

theorem addMany_parsed : ∀ (ds : List (List DecNum)) (t : Option String),
    ds ≠ [] → ∃ txt, addMany t ds = some txt
      ∧ parseFaceEncodings txt
          = ds.foldl (fun acc d => sliceLast10 (acc ++ [d])) (parsedOf t) := by
  intro ds
  induction ds with
  | nil => intro t h; exact absurd rfl h
  | cons d ds' ih =>
    intro t _
    cases hds : ds' with
    | nil =>
      refine ⟨addFaceEncoding t d, rfl, ?_⟩
      rw [List.foldl_cons, List.foldl_nil]
      exact addFaceEncoding_parse t d
    | cons e es =>
      obtain ⟨txt, htxt, hparse⟩ :=
        ih (some (addFaceEncoding t d)) (by rw [hds]; exact List.cons_ne_nil _ _)
      refine ⟨txt, ?_, ?_⟩
      · rw [addMany, ← hds]
        rw [hds] at htxt ⊢
        exact htxt
      · rw [List.foldl_cons]
        rw [hparse]
        congr 1
        exact addFaceEncoding_parse t d

theorem foldl_slice_of_length12 (ds : List (List DecNum))
    (h : ds.length = 12) :
    ds.foldl (fun acc d => sliceLast10 (acc ++ [d])) [] = ds.drop 2 := by
  rcases ds with _ | ⟨a1, _ | ⟨a2, _ | ⟨a3, _ | ⟨a4, _ | ⟨a5, _ | ⟨a6,
    _ | ⟨a7, _ | ⟨a8, _ | ⟨a9, _ | ⟨a10, _ | ⟨a11, _ | ⟨a12, tl⟩⟩⟩⟩⟩⟩⟩⟩⟩⟩⟩⟩ <;>
    simp only [List.length_cons, List.length_nil] at h
  · omega
  · omega
  · omega
  · omega
  · omega
  · omega
  · omega
  · omega
  · omega
  · omega
  · omega
  · omega
  · have htl : tl = [] := by
      rw [← List.length_eq_zero]
      omega
    subst htl
    simp [sliceLast10]

/-- C7 counterexample: the stored text `"[[1], [2]]"` is a valid JSON
array of arrays of numbers (it deserializes to `[[1],[2]]`), but
re-serializing drops the whitespace, so `serialize (deserialize x) ≠ x`
for this valid `x`. -/
theorem C7_counterexample :
    parseFaceEncodings "[[1], [2]]"
      = [[⟨(1, 0), Or.inl rfl⟩], [⟨(2, 0), Or.inl rfl⟩]]
    ∧ serializeFaceEncodings (parseFaceEncodings "[[1], [2]]") = "[[1],[2]]"
    ∧ serializeFaceEncodings (parseFaceEncodings "[[1], [2]]")
        ≠ "[[1], [2]]" :=
  ⟨by decide, by decide, by decide⟩

/-- C7 (amended): serialize-after-deserialize is the identity exactly on
canonically serialized texts: for every text in the image of
`serializeFaceEncodings` (no redundant whitespace, canonical number
spellings — which is what the store itself ever writes),
`serialize (deserialize x) = x`.  On other valid texts the round trip
returns the canonical serialization instead (see the counterexample). -/
theorem C7_roundtrip (x : String)
    (h : ∃ l : List (List DecNum), serializeFaceEncodings l = x) :
    serializeFaceEncodings (parseFaceEncodings x) = x := by
  obtain ⟨l, rfl⟩ := h
  rw [parse_serialize]

/-- Witness for C7: the canonical text `"[[1],[2]]"` round-trips
exactly. -/
theorem C7_witness :
    serializeFaceEncodings (parseFaceEncodings "[[1],[2]]") = "[[1],[2]]" :=
  C7_roundtrip "[[1],[2]]"
    ⟨[[⟨(1, 0), Or.inl rfl⟩], [⟨(2, 0), Or.inl rfl⟩]], by decide⟩

/-- C6: `addFaceEncoding` treats an absent or unparseable existing text
as the empty list; the stored list after any call has at most 10 entries
and equals the most recent 10 of the previous entries plus the new one
(FIFO eviction); and 12 sequential additions starting from an empty
store leave exactly additions 3 through 12, in order. -/
theorem C6_addFaceEncoding :
    (∀ d : List DecNum, addFaceEncoding none d = serializeFaceEncodings [d])
    ∧ (∀ (t : String) (d : List DecNum), parseFaceEncodings t = [] →
        addFaceEncoding (some t) d = serializeFaceEncodings [d])
    ∧ (∀ (t : Option String) (d : List DecNum),
        (parseFaceEncodings (addFaceEncoding t d)).length ≤ 10)
    ∧ (∀ (t : Option String) (d : List DecNum),
        parseFaceEncodings (addFaceEncoding t d)
          = sliceLast10 (parsedOf t ++ [d]))
    ∧ (∀ ds : List (List DecNum), ds.length = 12 →
        ∃ txt, addMany none ds = some txt
          ∧ parseFaceEncodings txt = ds.drop 2
          ∧ (parseFaceEncodings txt).length = 10) := by
  refine ⟨fun d => rfl, ?_, ?_, addFaceEncoding_parse, ?_⟩
  · intro t d h
    show serializeFaceEncodings
        (sliceLast10 (parseFaceEncodings t ++ [d])) = _
    rw [h]
    rfl
  · intro t d
    rw [addFaceEncoding_parse, sliceLast10, List.length_drop]
    omega
  · intro ds hlen
    obtain ⟨txt, htxt, hparse⟩ := addMany_parsed ds none
      (by intro hcontra; rw [hcontra] at hlen; simp at hlen)
    rw [show parsedOf none = ([] : List (List DecNum)) from rfl,
      foldl_slice_of_length12 ds hlen] at hparse
    refine ⟨txt, htxt, hparse, ?_⟩
    rw [hparse, List.length_drop, hlen]

/-- Witness for C6: twelve concrete additions on an empty store leave
the ten most recent descriptors. -/
theorem C6_witness :
    ∃ txt, addMany none
        ((List.range 12).map (fun i => [(⟨((i : ℤ), 0), Or.inl rfl⟩ : DecNum)]))
        = some txt
      ∧ parseFaceEncodings txt
          = ((List.range 12).map
              (fun i => [(⟨((i : ℤ), 0), Or.inl rfl⟩ : DecNum)])).drop 2
      ∧ (parseFaceEncodings txt).length = 10 :=
  C6_addFaceEncoding.2.2.2.2
    ((List.range 12).map (fun i => [(⟨((i : ℤ), 0), Or.inl rfl⟩ : DecNum)]))
    (by decide)

end TidyPhotos
